import Mathlib

/-!
Verification of the semantic highlight resolver of
gopls/internal/lsp/source/highlight_gox.go.

The development shallowly embeds the highlighter.  The syntax tree of a
parsed Go+ file (the github.com/goplus/gop/ast collaborator) is modelled
by the inductive type Node below; semantic resolution tables
(Defs/Uses/Implicits of typesutil.Info) are modelled by the structure
Info; byte offsets are Nat; the result set built in a Go map keyed by
posRange is modelled by a list of posRange values whose membership
relation is the set content.  Go pointer equality between nodes of one
file is modelled by structural equality (a strict subterm is never
structurally equal to the whole term, and distinct nodes of one parsed
file carry distinct spans, so structural equality coincides with
pointer identity on the trees of interest).

The recursive tree visitor ast.Inspect is modelled by the generic
traversal walk: the callback receives a node and yields the ranges it
inserts plus the boolean that decides descent into the children, exactly
as the Go callback signature does.
-/

/-- The branch-statement tokens of go/token used by the highlighter. -/
inductive Tok where
  | BREAK | CONTINUE | GOTO | FALLTHROUGH
deriving DecidableEq, Repr

/-- Syntax-tree nodes, modelling the github.com/goplus/gop/ast node kinds
the highlighter distinguishes.  Every node records its half-open source
span [pos, endPos). -/
inductive Node where
  | file (decls : List Node) (pos endPos : Nat)
  | ident (name : String) (pos endPos : Nat)
  | basicLit (value : String) (pos endPos : Nat)
  | selectorExpr (x sel : Node) (pos endPos : Nat)
  | keyValueExpr (key value : Node) (pos endPos : Nat)
  | callExpr (func : Node) (args : List Node) (pos endPos : Nat)
  | field (names : List Node) (typ : Node) (pos endPos : Nat)
  | fieldList (fields : List Node) (pos endPos : Nat)
  | funcType (results : Option Node) (pos endPos : Nat)
  | funcDecl (name typ body : Node) (pos endPos : Nat)
  | funcLit (typ body : Node) (pos endPos : Nat)
  | blockStmt (stmts : List Node) (pos endPos : Nat)
  | returnStmt (results : List Node) (pos endPos : Nat)
  | ifStmt (cond body : Node) (els : Option Node) (pos endPos : Nat)
  | forStmt (body : Node) (pos endPos : Nat)
  | rangeStmt (body : Node) (pos endPos : Nat)
  | switchStmt (body : Node) (pos endPos : Nat)
  | selectStmt (body : Node) (pos endPos : Nat)
  | caseClause (exprs body : List Node) (pos endPos : Nat)
  | branchStmt (tok : Tok) (label : Option Node) (pos endPos : Nat)
  | labeledStmt (label stmt : Node) (pos endPos : Nat)
  | importSpec (name : Option Node) (path : Node) (pos endPos : Nat)
  | exprStmt (x : Node) (pos endPos : Nat)

mutual

/-- Structural equality test on nodes (the model of Go pointer equality,
see the header comment). -/
def Node.beq : Node → Node → Bool
  | .file a p e, b =>
    match b with | .file a' p' e' => Node.beqList a a' && p == p' && e == e' | _ => false
  | .ident s p e, b =>
    match b with | .ident s' p' e' => s == s' && p == p' && e == e' | _ => false
  | .basicLit s p e, b =>
    match b with | .basicLit s' p' e' => s == s' && p == p' && e == e' | _ => false
  | .selectorExpr x y p e, b =>
    match b with | .selectorExpr x' y' p' e' => Node.beq x x' && Node.beq y y' && p == p' && e == e' | _ => false
  | .keyValueExpr x y p e, b =>
    match b with | .keyValueExpr x' y' p' e' => Node.beq x x' && Node.beq y y' && p == p' && e == e' | _ => false
  | .callExpr x a p e, b =>
    match b with | .callExpr x' a' p' e' => Node.beq x x' && Node.beqList a a' && p == p' && e == e' | _ => false
  | .field a x p e, b =>
    match b with | .field a' x' p' e' => Node.beqList a a' && Node.beq x x' && p == p' && e == e' | _ => false
  | .fieldList a p e, b =>
    match b with | .fieldList a' p' e' => Node.beqList a a' && p == p' && e == e' | _ => false
  | .funcType r p e, b =>
    match b with | .funcType r' p' e' => Node.beqOpt r r' && p == p' && e == e' | _ => false
  | .funcDecl x y z p e, b =>
    match b with | .funcDecl x' y' z' p' e' => Node.beq x x' && Node.beq y y' && Node.beq z z' && p == p' && e == e' | _ => false
  | .funcLit x y p e, b =>
    match b with | .funcLit x' y' p' e' => Node.beq x x' && Node.beq y y' && p == p' && e == e' | _ => false
  | .blockStmt a p e, b =>
    match b with | .blockStmt a' p' e' => Node.beqList a a' && p == p' && e == e' | _ => false
  | .returnStmt a p e, b =>
    match b with | .returnStmt a' p' e' => Node.beqList a a' && p == p' && e == e' | _ => false
  | .ifStmt x y o p e, b =>
    match b with | .ifStmt x' y' o' p' e' => Node.beq x x' && Node.beq y y' && Node.beqOpt o o' && p == p' && e == e' | _ => false
  | .forStmt x p e, b =>
    match b with | .forStmt x' p' e' => Node.beq x x' && p == p' && e == e' | _ => false
  | .rangeStmt x p e, b =>
    match b with | .rangeStmt x' p' e' => Node.beq x x' && p == p' && e == e' | _ => false
  | .switchStmt x p e, b =>
    match b with | .switchStmt x' p' e' => Node.beq x x' && p == p' && e == e' | _ => false
  | .selectStmt x p e, b =>
    match b with | .selectStmt x' p' e' => Node.beq x x' && p == p' && e == e' | _ => false
  | .caseClause a c p e, b =>
    match b with | .caseClause a' c' p' e' => Node.beqList a a' && Node.beqList c c' && p == p' && e == e' | _ => false
  | .branchStmt t o p e, b =>
    match b with | .branchStmt t' o' p' e' => t == t' && Node.beqOpt o o' && p == p' && e == e' | _ => false
  | .labeledStmt x y p e, b =>
    match b with | .labeledStmt x' y' p' e' => Node.beq x x' && Node.beq y y' && p == p' && e == e' | _ => false
  | .importSpec o x p e, b =>
    match b with | .importSpec o' x' p' e' => Node.beqOpt o o' && Node.beq x x' && p == p' && e == e' | _ => false
  | .exprStmt x p e, b =>
    match b with | .exprStmt x' p' e' => Node.beq x x' && p == p' && e == e' | _ => false

/-- Equality test lifted to optional nodes (nil pointers included). -/
def Node.beqOpt : Option Node → Option Node → Bool
  | none, none => true
  | some a, some b => Node.beq a b
  | _, _ => false

/-- Equality test lifted to node lists. -/
def Node.beqList : List Node → List Node → Bool
  | [], [] => true
  | a :: as, b :: bs => Node.beq a b && Node.beqList as bs
  | _, _ => false

end

instance : BEq Node := ⟨Node.beq⟩

mutual

theorem Node.beq_refl : ∀ (a : Node), Node.beq a a = true
  | .file a _ _ => by simp [Node.beq, Node.beqList_refl a]
  | .ident _ _ _ => by simp [Node.beq]
  | .basicLit _ _ _ => by simp [Node.beq]
  | .selectorExpr x y _ _ => by simp [Node.beq, Node.beq_refl x, Node.beq_refl y]
  | .keyValueExpr x y _ _ => by simp [Node.beq, Node.beq_refl x, Node.beq_refl y]
  | .callExpr x a _ _ => by simp [Node.beq, Node.beq_refl x, Node.beqList_refl a]
  | .field a x _ _ => by simp [Node.beq, Node.beqList_refl a, Node.beq_refl x]
  | .fieldList a _ _ => by simp [Node.beq, Node.beqList_refl a]
  | .funcType r _ _ => by simp [Node.beq, Node.beqOpt_refl r]
  | .funcDecl x y z _ _ => by simp [Node.beq, Node.beq_refl x, Node.beq_refl y, Node.beq_refl z]
  | .funcLit x y _ _ => by simp [Node.beq, Node.beq_refl x, Node.beq_refl y]
  | .blockStmt a _ _ => by simp [Node.beq, Node.beqList_refl a]
  | .returnStmt a _ _ => by simp [Node.beq, Node.beqList_refl a]
  | .ifStmt x y o _ _ => by simp [Node.beq, Node.beq_refl x, Node.beq_refl y, Node.beqOpt_refl o]
  | .forStmt x _ _ => by simp [Node.beq, Node.beq_refl x]
  | .rangeStmt x _ _ => by simp [Node.beq, Node.beq_refl x]
  | .switchStmt x _ _ => by simp [Node.beq, Node.beq_refl x]
  | .selectStmt x _ _ => by simp [Node.beq, Node.beq_refl x]
  | .caseClause a c _ _ => by simp [Node.beq, Node.beqList_refl a, Node.beqList_refl c]
  | .branchStmt _ o _ _ => by simp [Node.beq, Node.beqOpt_refl o]
  | .labeledStmt x y _ _ => by simp [Node.beq, Node.beq_refl x, Node.beq_refl y]
  | .importSpec o x _ _ => by simp [Node.beq, Node.beqOpt_refl o, Node.beq_refl x]
  | .exprStmt x _ _ => by simp [Node.beq, Node.beq_refl x]

theorem Node.beqOpt_refl : ∀ (o : Option Node), Node.beqOpt o o = true
  | none => rfl
  | some a => Node.beq_refl a

theorem Node.beqList_refl : ∀ (l : List Node), Node.beqList l l = true
  | [] => rfl
  | a :: as => by simp [Node.beqList, Node.beq_refl a, Node.beqList_refl as]

end

theorem Node.beq_self (a : Node) : (a == a) = true := Node.beq_refl a

mutual

theorem Node.eq_of_beq : ∀ {a b : Node}, Node.beq a b = true → a = b
  | .file a p e, b, h => by
    cases b <;> simp [Node.beq] at h
    obtain ⟨⟨h1, h2⟩, h3⟩ := h
    rw [Node.eqList_of_beqList h1, h2, h3]
  | .ident s p e, b, h => by
    cases b <;> simp [Node.beq] at h
    obtain ⟨⟨h1, h2⟩, h3⟩ := h
    rw [h1, h2, h3]
  | .basicLit s p e, b, h => by
    cases b <;> simp [Node.beq] at h
    obtain ⟨⟨h1, h2⟩, h3⟩ := h
    rw [h1, h2, h3]
  | .selectorExpr x y p e, b, h => by
    cases b <;> simp [Node.beq] at h
    obtain ⟨⟨⟨h1, h2⟩, h3⟩, h4⟩ := h
    rw [Node.eq_of_beq h1, Node.eq_of_beq h2, h3, h4]
  | .keyValueExpr x y p e, b, h => by
    cases b <;> simp [Node.beq] at h
    obtain ⟨⟨⟨h1, h2⟩, h3⟩, h4⟩ := h
    rw [Node.eq_of_beq h1, Node.eq_of_beq h2, h3, h4]
  | .callExpr x a p e, b, h => by
    cases b <;> simp [Node.beq] at h
    obtain ⟨⟨⟨h1, h2⟩, h3⟩, h4⟩ := h
    rw [Node.eq_of_beq h1, Node.eqList_of_beqList h2, h3, h4]
  | .field a x p e, b, h => by
    cases b <;> simp [Node.beq] at h
    obtain ⟨⟨⟨h1, h2⟩, h3⟩, h4⟩ := h
    rw [Node.eqList_of_beqList h1, Node.eq_of_beq h2, h3, h4]
  | .fieldList a p e, b, h => by
    cases b <;> simp [Node.beq] at h
    obtain ⟨⟨h1, h2⟩, h3⟩ := h
    rw [Node.eqList_of_beqList h1, h2, h3]
  | .funcType r p e, b, h => by
    cases b <;> simp [Node.beq] at h
    obtain ⟨⟨h1, h2⟩, h3⟩ := h
    rw [Node.eqOpt_of_beqOpt h1, h2, h3]
  | .funcDecl x y z p e, b, h => by
    cases b <;> simp [Node.beq] at h
    obtain ⟨⟨⟨⟨h1, h2⟩, h3⟩, h4⟩, h5⟩ := h
    rw [Node.eq_of_beq h1, Node.eq_of_beq h2, Node.eq_of_beq h3, h4, h5]
  | .funcLit x y p e, b, h => by
    cases b <;> simp [Node.beq] at h
    obtain ⟨⟨⟨h1, h2⟩, h3⟩, h4⟩ := h
    rw [Node.eq_of_beq h1, Node.eq_of_beq h2, h3, h4]
  | .blockStmt a p e, b, h => by
    cases b <;> simp [Node.beq] at h
    obtain ⟨⟨h1, h2⟩, h3⟩ := h
    rw [Node.eqList_of_beqList h1, h2, h3]
  | .returnStmt a p e, b, h => by
    cases b <;> simp [Node.beq] at h
    obtain ⟨⟨h1, h2⟩, h3⟩ := h
    rw [Node.eqList_of_beqList h1, h2, h3]
  | .ifStmt x y o p e, b, h => by
    cases b <;> simp [Node.beq] at h
    obtain ⟨⟨⟨⟨h1, h2⟩, h3⟩, h4⟩, h5⟩ := h
    rw [Node.eq_of_beq h1, Node.eq_of_beq h2, Node.eqOpt_of_beqOpt h3, h4, h5]
  | .forStmt x p e, b, h => by
    cases b <;> simp [Node.beq] at h
    obtain ⟨⟨h1, h2⟩, h3⟩ := h
    rw [Node.eq_of_beq h1, h2, h3]
  | .rangeStmt x p e, b, h => by
    cases b <;> simp [Node.beq] at h
    obtain ⟨⟨h1, h2⟩, h3⟩ := h
    rw [Node.eq_of_beq h1, h2, h3]
  | .switchStmt x p e, b, h => by
    cases b <;> simp [Node.beq] at h
    obtain ⟨⟨h1, h2⟩, h3⟩ := h
    rw [Node.eq_of_beq h1, h2, h3]
  | .selectStmt x p e, b, h => by
    cases b <;> simp [Node.beq] at h
    obtain ⟨⟨h1, h2⟩, h3⟩ := h
    rw [Node.eq_of_beq h1, h2, h3]
  | .caseClause a c p e, b, h => by
    cases b <;> simp [Node.beq] at h
    obtain ⟨⟨⟨h1, h2⟩, h3⟩, h4⟩ := h
    rw [Node.eqList_of_beqList h1, Node.eqList_of_beqList h2, h3, h4]
  | .branchStmt t o p e, b, h => by
    cases b <;> simp [Node.beq] at h
    obtain ⟨⟨⟨h1, h2⟩, h3⟩, h4⟩ := h
    rw [h1, Node.eqOpt_of_beqOpt h2, h3, h4]
  | .labeledStmt x y p e, b, h => by
    cases b <;> simp [Node.beq] at h
    obtain ⟨⟨⟨h1, h2⟩, h3⟩, h4⟩ := h
    rw [Node.eq_of_beq h1, Node.eq_of_beq h2, h3, h4]
  | .importSpec o x p e, b, h => by
    cases b <;> simp [Node.beq] at h
    obtain ⟨⟨⟨h1, h2⟩, h3⟩, h4⟩ := h
    rw [Node.eqOpt_of_beqOpt h1, Node.eq_of_beq h2, h3, h4]
  | .exprStmt x p e, b, h => by
    cases b <;> simp [Node.beq] at h
    obtain ⟨⟨h1, h2⟩, h3⟩ := h
    rw [Node.eq_of_beq h1, h2, h3]

theorem Node.eqOpt_of_beqOpt : ∀ {o o' : Option Node}, Node.beqOpt o o' = true → o = o'
  | none, none, _ => rfl
  | some a, some b, h => by rw [Node.eq_of_beq h]
  | none, some _, h => by simp [Node.beqOpt] at h
  | some _, none, h => by simp [Node.beqOpt] at h

theorem Node.eqList_of_beqList : ∀ {l l' : List Node}, Node.beqList l l' = true → l = l'
  | [], [], _ => rfl
  | a :: as, b :: bs, h => by
    simp [Node.beqList] at h
    obtain ⟨h1, h2⟩ := h
    rw [Node.eq_of_beq h1, Node.eqList_of_beqList h2]
  | [], _ :: _, h => by simp [Node.beqList] at h
  | _ :: _, [], h => by simp [Node.beqList] at h

end

instance : LawfulBEq Node where
  eq_of_beq h := Node.eq_of_beq h
  rfl := Node.beq_refl _

instance : DecidableEq Node := fun a b =>
  decidable_of_iff ((a == b) = true) (by simp)

/-- The source span start of a node. -/
def Node.pos : Node → Nat
  | .file _ p _ => p
  | .ident _ p _ => p
  | .basicLit _ p _ => p
  | .selectorExpr _ _ p _ => p
  | .keyValueExpr _ _ p _ => p
  | .callExpr _ _ p _ => p
  | .field _ _ p _ => p
  | .fieldList _ p _ => p
  | .funcType _ p _ => p
  | .funcDecl _ _ _ p _ => p
  | .funcLit _ _ p _ => p
  | .blockStmt _ p _ => p
  | .returnStmt _ p _ => p
  | .ifStmt _ _ _ p _ => p
  | .forStmt _ p _ => p
  | .rangeStmt _ p _ => p
  | .switchStmt _ p _ => p
  | .selectStmt _ p _ => p
  | .caseClause _ _ p _ => p
  | .branchStmt _ _ p _ => p
  | .labeledStmt _ _ p _ => p
  | .importSpec _ _ p _ => p
  | .exprStmt _ p _ => p

/-- The source span end of a node (exclusive). -/
def Node.endPos : Node → Nat
  | .file _ _ e => e
  | .ident _ _ e => e
  | .basicLit _ _ e => e
  | .selectorExpr _ _ _ e => e
  | .keyValueExpr _ _ _ e => e
  | .callExpr _ _ _ e => e
  | .field _ _ _ e => e
  | .fieldList _ _ e => e
  | .funcType _ _ e => e
  | .funcDecl _ _ _ _ e => e
  | .funcLit _ _ _ e => e
  | .blockStmt _ _ e => e
  | .returnStmt _ _ e => e
  | .ifStmt _ _ _ _ e => e
  | .forStmt _ _ e => e
  | .rangeStmt _ _ e => e
  | .switchStmt _ _ e => e
  | .selectStmt _ _ e => e
  | .caseClause _ _ _ e => e
  | .branchStmt _ _ _ e => e
  | .labeledStmt _ _ _ e => e
  | .importSpec _ _ _ e => e
  | .exprStmt _ _ e => e

/-- The child nodes of a node, in source order: the fields that
ast.Walk (and hence ast.Inspect) visits. -/
def Node.children : Node → List Node
  | .file ds _ _ => ds
  | .ident _ _ _ => []
  | .basicLit _ _ _ => []
  | .selectorExpr x sel _ _ => [x, sel]
  | .keyValueExpr k v _ _ => [k, v]
  | .callExpr fn args _ _ => fn :: args
  | .field ns t _ _ => ns ++ [t]
  | .fieldList fs _ _ => fs
  | .funcType r _ _ => r.toList
  | .funcDecl nm t b _ _ => [nm, t, b]
  | .funcLit t b _ _ => [t, b]
  | .blockStmt ss _ _ => ss
  | .returnStmt rs _ _ => rs
  | .ifStmt c b e _ _ => [c, b] ++ e.toList
  | .forStmt b _ _ => [b]
  | .rangeStmt b _ _ => [b]
  | .switchStmt b _ _ => [b]
  | .selectStmt b _ _ => [b]
  | .caseClause es ss _ _ => es ++ ss
  | .branchStmt _ lbl _ _ => lbl.toList
  | .labeledStmt l s _ _ => [l, s]
  | .importSpec nm p _ _ => nm.toList ++ [p]
  | .exprStmt x _ _ => [x]

mutual

/-- The model of ast.Inspect: call the visitor on the node; the visitor
yields the values it produces at this node together with the boolean
that decides whether the traversal descends into the children; the
inner match is the per-constructor child visit of ast.Walk. -/
def walk {α : Type} (f : Node → List α × Bool) (n : Node) : List α :=
  (f n).1 ++
    (if (f n).2 then
      (match n with
       | .file ds _ _ => walkList f ds
       | .ident _ _ _ => []
       | .basicLit _ _ _ => []
       | .selectorExpr x sel _ _ => walk f x ++ walk f sel
       | .keyValueExpr k v _ _ => walk f k ++ walk f v
       | .callExpr fn args _ _ => walk f fn ++ walkList f args
       | .field ns t _ _ => walkList f ns ++ walk f t
       | .fieldList fs _ _ => walkList f fs
       | .funcType r _ _ => walkOpt f r
       | .funcDecl nm t b _ _ => walk f nm ++ walk f t ++ walk f b
       | .funcLit t b _ _ => walk f t ++ walk f b
       | .blockStmt ss _ _ => walkList f ss
       | .returnStmt rs _ _ => walkList f rs
       | .ifStmt c b e _ _ => walk f c ++ walk f b ++ walkOpt f e
       | .forStmt b _ _ => walk f b
       | .rangeStmt b _ _ => walk f b
       | .switchStmt b _ _ => walk f b
       | .selectStmt b _ _ => walk f b
       | .caseClause es ss _ _ => walkList f es ++ walkList f ss
       | .branchStmt _ lbl _ _ => walkOpt f lbl
       | .labeledStmt l s _ _ => walk f l ++ walk f s
       | .importSpec nm p _ _ => walkOpt f nm ++ walk f p
       | .exprStmt x _ _ => walk f x)
     else [])
termination_by structural n

def walkOpt {α : Type} (f : Node → List α × Bool) : Option Node → List α
  | none => []
  | some n => walk f n
termination_by structural o => o

def walkList {α : Type} (f : Node → List α × Bool) : List Node → List α
  | [] => []
  | c :: cs => walk f c ++ walkList f cs
termination_by structural l => l

end

theorem walkList_eq {α : Type} (f : Node → List α × Bool) (cs : List Node) :
    walkList f cs = cs.flatMap (walk f) := by
  induction cs with
  | nil => simp [walkList]
  | cons c cs ih => simp [walkList, ih]

theorem walkOpt_eq {α : Type} (f : Node → List α × Bool) (o : Option Node) :
    walkOpt f o = o.toList.flatMap (walk f) := by
  cases o <;> simp [walkOpt]

theorem walk_eq {α : Type} (f : Node → List α × Bool) (n : Node) :
    walk f n = (f n).1 ++ (if (f n).2 then (n.children).flatMap (walk f) else []) := by
  cases n <;> simp [walk, Node.children, walkList_eq, walkOpt_eq]

theorem sizeOf_lt_of_mem_children {c n : Node} (h : c ∈ n.children) : sizeOf c < sizeOf n := by
  cases n <;> simp [Node.children] at h
  case file ds p e =>
    have := List.sizeOf_lt_of_mem h; simp; omega
  case selectorExpr x sel p e =>
    rcases h with rfl | rfl <;> simp <;> omega
  case keyValueExpr k v p e =>
    rcases h with rfl | rfl <;> simp <;> omega
  case callExpr fn args p e =>
    rcases h with rfl | h
    · simp; omega
    · have := List.sizeOf_lt_of_mem h; simp; omega
  case field ns t p e =>
    rcases h with h | rfl
    · have := List.sizeOf_lt_of_mem h; simp; omega
    · simp; omega
  case fieldList fs p e =>
    have := List.sizeOf_lt_of_mem h; simp; omega
  case funcType r p e =>
    rcases r with _ | r <;> simp at h
    subst h; simp; omega
  case funcDecl nm t b p e =>
    rcases h with rfl | rfl | rfl <;> simp <;> omega
  case funcLit t b p e =>
    rcases h with rfl | rfl <;> simp <;> omega
  case blockStmt ss p e =>
    have := List.sizeOf_lt_of_mem h; simp; omega
  case returnStmt rs p e =>
    have := List.sizeOf_lt_of_mem h; simp; omega
  case ifStmt cnd b els p e =>
    rcases h with rfl | rfl | h
    · simp; omega
    · simp; omega
    · rcases els with _ | els <;> simp at h
      subst h; simp; omega
  case forStmt b p e => subst h; simp; omega
  case rangeStmt b p e => subst h; simp; omega
  case switchStmt b p e => subst h; simp; omega
  case selectStmt b p e => subst h; simp; omega
  case caseClause es ss p e =>
    rcases h with h | h <;> have := List.sizeOf_lt_of_mem h <;> simp <;> omega
  case branchStmt t lbl p e =>
    rcases lbl with _ | lbl <;> simp at h
    subst h; simp; omega
  case labeledStmt l s p e =>
    rcases h with rfl | rfl <;> simp <;> omega
  case importSpec nm pth p e =>
    rcases h with h | rfl
    · rcases nm with _ | nm <;> simp at h
      subst h; simp; omega
    · simp; omega
  case exprStmt x p e => subst h; simp; omega

/-- The list of nodes the traversal visits when the per-node boolean d
decides descent: the node itself, then (when d allows) the visits of the
children.  This is the specification-side notion of a
boundary-stopping traversal. -/
def visited (d : Node → Bool) (n : Node) : List Node :=
  walk (fun m => ([m], d m)) n

theorem visited_eq (d : Node → Bool) (n : Node) :
    visited d n = n :: (if d n then (n.children).flatMap (visited d) else []) := by
  rw [visited, walk_eq]
  simp only [List.singleton_append]
  congr 1

/-- The nodes of the whole subtree under n (traversal with no boundary). -/
def allNodes (n : Node) : List Node :=
  visited (fun _ => true) n

theorem mem_visited_self (d : Node → Bool) (n : Node) : n ∈ visited d n := by
  rw [visited_eq]; exact List.mem_cons_self _ _

/-- Membership characterization of the generic traversal: a value is
produced by walk exactly when some node visited by the traversal (with
the same descent decisions) produces it. -/
theorem mem_walk {α : Type} (f : Node → List α × Bool) (a : α) (n : Node) :
    a ∈ walk f n ↔ ∃ m ∈ visited (fun x => (f x).2) n, a ∈ (f m).1 := by
  rw [walk_eq]
  rcases Bool.eq_false_or_eq_true (f n).2 with hd | hd
  · simp only [hd, if_true, List.mem_append, List.mem_flatMap]
    constructor
    · rintro (h | ⟨c, hc, hwc⟩)
      · exact ⟨n, mem_visited_self _ n, h⟩
      · rcases (mem_walk f a c).mp hwc with ⟨m, hm, ha⟩
        refine ⟨m, ?_, ha⟩
        rw [visited_eq]
        refine List.mem_cons_of_mem _ ?_
        simp only [hd, if_true, List.mem_flatMap]
        exact ⟨c, hc, hm⟩
    · rintro ⟨m, hm, ha⟩
      rw [visited_eq] at hm
      rcases List.mem_cons.mp hm with rfl | hm
      · exact .inl ha
      · simp only [hd, if_true, List.mem_flatMap] at hm
        rcases hm with ⟨c, hc, hmc⟩
        exact .inr ⟨c, hc, (mem_walk f a c).mpr ⟨m, hmc, ha⟩⟩
  · simp only [hd, List.mem_append]
    constructor
    · intro h
      rcases h with h | h
      · exact ⟨n, mem_visited_self _ n, h⟩
      · simp at h
    · rintro ⟨m, hm, ha⟩
      rw [visited_eq] at hm
      simp only [hd] at hm
      rcases List.mem_cons.mp hm with rfl | hm
      · exact .inl ha
      · simp at hm
termination_by sizeOf n
decreasing_by all_goals exact sizeOf_lt_of_mem_children hc

/-- A half-open byte range [start, stop) in file-offset space (the posRange
struct of the source; the end field is called stop here because end is a
reserved word). -/
structure posRange where
  start : Nat
  stop : Nat
deriving DecidableEq, Repr

/-- The full source span of a node as a posRange. -/
def span (n : Node) : posRange := ⟨n.pos, n.endPos⟩

/-- Modelled from the spec: a semantic object (§3), an opaque comparable
identity denoting one declaration.  The isPkgName flag models the
dynamic type test obj.(*types.PkgName) of the source. -/
structure Obj where
  id : Nat
  isPkgName : Bool
deriving DecidableEq, Repr

/-- Modelled from the spec: SemanticInfo (§3), the read-only tables
Defs/Uses/Implicits of the typesutil.Info collaborator, keyed here by the
start offset of the identifier (identifiers of one parsed file have
pairwise distinct start offsets). -/
structure Info where
  defs : Nat → Option Obj
  uses : Nat → Option Obj
  implicits : Nat → Option Obj

/-- Lookup info.Defs[id] for a possibly nil identifier pointer (a Go map
lookup with a nil key yields the zero value nil). -/
def Info.defsOf (info : Info) : Option Node → Option Obj
  | none => none
  | some n => info.defs n.pos

/-- Lookup info.Uses[id] for a possibly nil identifier pointer. -/
def Info.usesOf (info : Info) : Option Node → Option Obj
  | none => none
  | some n => info.uses n.pos

/-- Modelled from the spec: ObjectOf of the semantic-resolution
collaborator, the object an identifier resolves to: its Defs entry when
bound there, otherwise its Uses entry; none is the explicit no-binding
value. -/
def Info.objectOf (info : Info) (n : Node) : Option Obj :=
  match info.defs n.pos with
  | some o => some o
  | none => info.uses n.pos

/-- A total getter for node lists (callers guard the index bound). -/
def getNode (l : List Node) (i : Nat) : Node := l.getD i (.ident "" 0 0)

def nodeAtPosAux (p : Nat) : List Node → Nat → Int
  | [], _ => -1
  | n :: rest, i => if n.pos ≤ p && p < n.endPos then (i : Int) else nodeAtPosAux p rest (i + 1)

/-- Modelled from the spec: the positional index of the cursor's
containing expression within a node list (§4.3a step 5); -1 when no list
element contains the position.  The helper nodeAtPos used at
highlight_gox.go:203 lives outside the given sources. -/
def nodeAtPos (nodes : List Node) (p : Nat) : Int := nodeAtPosAux p nodes 0

/-- The Results field list of a function type node (node.Type.Results). -/
def funcTypeResults : Node → Option Node
  | .funcType r _ _ => r
  | _ => none

/-- The element list of a field list node (resultsList.List). -/
def fieldListFields : Node → List Node
  | .fieldList fs _ _ => fs
  | _ => []

/-- The Results expression list of a return statement
(returnStmt.Results). -/
def returnResults : Node → List Node
  | .returnStmt rs _ _ => rs
  | _ => []

/-- The Label field of a branch statement (stmt.Label). -/
def branchLabel : Node → Option Node
  | .branchStmt _ lbl _ _ => lbl
  | _ => none

/-- The state gathered by the reverse path walk of
gopHighlightFuncControlFlow (highlight_gox.go:136-173): the enclosing
function, the nearest enclosing return statement, the signature result
list and the in-return-list flag. -/
structure FuncScan where
  enclosingFunc : Option Node
  returnStmt : Option Node
  resultsList : Option Node
  inReturnList : Bool
deriving DecidableEq

/-- The Outer loop of gopHighlightFuncControlFlow
(highlight_gox.go:141-173): reverse walk of the path up to the nearest
enclosing function; none models the early returns for a key-value
element and for a call argument. -/
def funcFlowWalkAux (p0 : Node) : Option Node → Option Node → Bool → List Node → Option FuncScan
  | _, retSt, inRet, [] => some ⟨none, retSt, none, inRet⟩
  | prev, retSt, inRet, n :: rest =>
    match n with
    | .keyValueExpr _ _ _ _ => none
    | .callExpr _ args _ _ =>
      (match prev with
       | some p => if args.contains p then none else funcFlowWalkAux p0 (some n) retSt inRet rest
       | none => funcFlowWalkAux p0 (some n) retSt inRet rest)
    | .field _ _ _ _ => funcFlowWalkAux p0 (some n) retSt true rest
    | .funcLit t _ _ _ => some ⟨some n, retSt, funcTypeResults t, inRet⟩
    | .funcDecl _ t _ _ _ => some ⟨some n, retSt, funcTypeResults t, inRet⟩
    | .returnStmt _ _ _ => funcFlowWalkAux p0 (some n) (some n) (inRet || !(p0 == n)) rest
    | _ => funcFlowWalkAux p0 (some n) retSt inRet rest

def funcFlowWalk (path : List Node) (p0 : Node) : Option FuncScan :=
  funcFlowWalkAux p0 none none false path

/-- highlight_gox.go:180-189: the highlight-all flag; true when the
cursor node is the enclosing return statement, the enclosing function or
a function type. -/
def funcFlowHighlightAll (p0 : Node) (scan : FuncScan) : Bool :=
  match p0 with
  | .funcType _ _ _ => true
  | _ => scan.returnStmt == some p0 || scan.enclosingFunc == some p0

/-- highlight_gox.go:181-186: early return when the cursor is an
identifier or literal outside any return statement and outside the
result list. -/
def funcFlowEarlyOut (p0 : Node) (scan : FuncScan) : Bool :=
  match p0 with
  | .ident _ _ _ => scan.returnStmt == none && !scan.inReturnList
  | .basicLit _ _ _ => scan.returnStmt == none && !scan.inReturnList
  | _ => false

/-- highlight_gox.go:193-202: the node list the positional index is
computed against. -/
def funcFlowNodes (scan : FuncScan) : List Node :=
  match scan.returnStmt with
  | some ret => returnResults ret
  | none =>
    match scan.resultsList with
    | some fl => fieldListFields fl
    | none => []

/-- The ast.Inspect callback of gopHighlightFuncControlFlow
(highlight_gox.go:221-244). -/
def funcFlowCb (enclosingFunc : Node) (highlightAll : Bool) (index : Int) (n : Node) :
    List posRange × Bool :=
  match n with
  | .funcDecl _ _ _ _ _ => ([], enclosingFunc == n)
  | .funcLit _ _ _ _ => ([], enclosingFunc == n)
  | .returnStmt rs _ _ =>
    let toAdd : Option Node := if highlightAll then some n else none
    let toAdd : Option Node :=
      if (-1 : Int) < index ∧ index < (rs.length : Int) then some (getNode rs index.toNat)
      else toAdd
    ((match toAdd with | some m => [span m] | none => []), false)
  | _ => ([], true)

/-- gopHighlightFuncControlFlow (highlight_gox.go:135-245). -/
def gopHighlightFuncControlFlow (path : List Node) (result : List posRange) : List posRange :=
  match path with
  | [] => result
  | p0 :: _ =>
    match funcFlowWalk path p0 with
    | none => result
    | some scan =>
      match scan.enclosingFunc with
      | none => result
      | some enclosingFunc =>
        if funcFlowEarlyOut p0 scan then result
        else
          let highlightAll := funcFlowHighlightAll p0 scan
          let index := nodeAtPos (funcFlowNodes scan) p0.pos
          let result :=
            match scan.resultsList with
            | some fl =>
              if (-1 : Int) < index ∧ index < ((fieldListFields fl).length : Int) then
                span (getNode (fieldListFields fl) index.toNat) :: result
              else result
            | none => result
          let result :=
            if highlightAll then
              { start := enclosingFunc.pos, stop := enclosingFunc.pos + "func".length } :: result
            else result
          walk (funcFlowCb enclosingFunc highlightAll index) enclosingFunc ++ result

/-- gopLabelFor (highlight_gox.go:285-292): the label of the second path
entry when it is a labeled statement. -/
def gopLabelFor : List Node → Option Node
  | _ :: .labeledStmt lbl _ _ _ :: _ => some lbl
  | _ => none

/-- The Outer loop of gopHighlightLoopControlFlow
(highlight_gox.go:298-310): the first for/range node of the path whose
label satisfies the label constraint, with its label. -/
def findLoop (stmtLabel : Option Node) : List Node → Option (Node × Option Node)
  | [] => none
  | n :: rest =>
    match n with
    | .forStmt _ _ _ | .rangeStmt _ _ _ =>
      (if stmtLabel == none || gopLabelFor (n :: rest) == stmtLabel
       then some (n, gopLabelFor (n :: rest))
       else findLoop stmtLabel rest)
    | _ => findLoop stmtLabel rest

/-- First ast.Inspect callback of gopHighlightLoopControlFlow
(highlight_gox.go:323-338): branch statements in the same flow as the
loop, stopping at nested loops and at switch/select boundaries. -/
def loopBranchCb (loop : Node) (loopLabel : Option Node) (info : Info) (n : Node) :
    List posRange × Bool :=
  match n with
  | .forStmt _ _ _ | .rangeStmt _ _ _ => ([], loop == n)
  | .switchStmt _ _ _ | .selectStmt _ _ _ => ([], false)
  | .branchStmt _ lbl _ _ =>
    ((if lbl == none || info.usesOf lbl == info.defsOf loopLabel then [span n] else []), true)
  | _ => ([], true)

/-- Second ast.Inspect callback of gopHighlightLoopControlFlow
(highlight_gox.go:341-351): continue statements, descending through
nested switch/select but stopping at nested loops. -/
def loopContinueCb (loop : Node) (n : Node) : List posRange × Bool :=
  match n with
  | .forStmt _ _ _ | .rangeStmt _ _ _ => ([], loop == n)
  | .branchStmt tok _ _ _ => ((if tok == Tok.CONTINUE then [span n] else []), true)
  | _ => ([], true)

/-- Third ast.Inspect callback of gopHighlightLoopControlFlow
(highlight_gox.go:359-369): labeled branch statements matching the loop
label, unrestricted by any boundary. -/
def loopLabeledCb (loopLabel : Option Node) (info : Info) (n : Node) : List posRange × Bool :=
  match n with
  | .branchStmt _ lbl _ _ =>
    ((if lbl != none && info.usesOf lbl == info.defsOf loopLabel then [span n] else []), true)
  | _ => ([], true)

/-- gopHighlightLoopControlFlow (highlight_gox.go:294-370). -/
def gopHighlightLoopControlFlow (path : List Node) (info : Info) (result : List posRange) : List posRange :=
  match findLoop (gopLabelFor path) path with
  | none => result
  | some (loop, loopLabel) =>
    let result := { start := loop.pos, stop := loop.pos + "for".length } :: result
    let result := walk (loopBranchCb loop loopLabel info) loop ++ result
    let result := walk (loopContinueCb loop) loop ++ result
    if loopLabel == none then result
    else walk (loopLabeledCb loopLabel info) loop ++ result

/-- The Outer loop of gopHighlightSwitchFlow (highlight_gox.go:376-387). -/
def findSwitch (stmtLabel : Option Node) : List Node → Option (Node × Option Node)
  | [] => none
  | n :: rest =>
    match n with
    | .switchStmt _ _ _ =>
      (if stmtLabel == none || gopLabelFor (n :: rest) == stmtLabel
       then some (n, gopLabelFor (n :: rest))
       else findSwitch stmtLabel rest)
    | _ => findSwitch stmtLabel rest

/-- First ast.Inspect callback of gopHighlightSwitchFlow
(highlight_gox.go:401-418): break statements within the same switch,
stopping at nested switches and at loop/select boundaries. -/
def switchBreakCb (switchNode : Node) (switchNodeLabel : Option Node) (info : Info) (n : Node) :
    List posRange × Bool :=
  match n with
  | .switchStmt _ _ _ => ([], switchNode == n)
  | .forStmt _ _ _ | .rangeStmt _ _ _ | .selectStmt _ _ _ => ([], false)
  | .branchStmt tok lbl _ _ =>
    ((if tok == Tok.BREAK && (lbl == none || info.usesOf lbl == info.defsOf switchNodeLabel)
      then [span n] else []), true)
  | _ => ([], true)

/-- Second ast.Inspect callback of gopHighlightSwitchFlow
(highlight_gox.go:426-437): labeled break statements matching the switch
label, unrestricted by any boundary. -/
def switchLabeledCb (switchNodeLabel : Option Node) (info : Info) (n : Node) : List posRange × Bool :=
  match n with
  | .branchStmt tok lbl _ _ =>
    ((if tok == Tok.BREAK && (lbl != none && info.usesOf lbl == info.defsOf switchNodeLabel)
      then [span n] else []), true)
  | _ => ([], true)

/-- gopHighlightSwitchFlow (highlight_gox.go:372-438). -/
def gopHighlightSwitchFlow (path : List Node) (info : Info) (result : List posRange) : List posRange :=
  match findSwitch (gopLabelFor path) path with
  | none => result
  | some (switchNode, switchNodeLabel) =>
    let result := { start := switchNode.pos, stop := switchNode.pos + "switch".length } :: result
    let result := walk (switchBreakCb switchNode switchNodeLabel info) switchNode ++ result
    if switchNodeLabel == none then result
    else walk (switchLabeledCb switchNodeLabel info) switchNode ++ result

/-- The reverse path walk of gopHighlightUnlabeledBreakFlow
(highlight_gox.go:248-263); path is the full enclosing path handed to
the delegated highlighters. -/
def unlabeledBreakWalk (path : List Node) (info : Info) (result : List posRange) :
    List Node → List posRange
  | [] => result
  | n :: rest =>
    match n with
    | .forStmt _ _ _ | .rangeStmt _ _ _ => gopHighlightLoopControlFlow path info result
    | .switchStmt _ _ _ => gopHighlightSwitchFlow path info result
    | .selectStmt _ _ _ => result
    | _ => unlabeledBreakWalk path info result rest

/-- gopHighlightUnlabeledBreakFlow (highlight_gox.go:248-263). -/
def gopHighlightUnlabeledBreakFlow (path : List Node) (info : Info) (result : List posRange) : List posRange :=
  unlabeledBreakWalk path info result path

/-- The path walk of gopHighlightLabeledFlow (highlight_gox.go:272-282),
given the resolved non-nil use object of the branch label. -/
def labeledFlowWalk (info : Info) (use : Obj) (result : List posRange) :
    List Node → List posRange
  | [] => result
  | n :: rest =>
    match n with
    | .labeledStmt lbl stmt _ _ =>
      if info.defs lbl.pos == some use then
        match stmt with
        | .forStmt _ _ _ | .rangeStmt _ _ _ => gopHighlightLoopControlFlow [stmt, n] info result
        | .switchStmt _ _ _ => gopHighlightSwitchFlow [stmt, n] info result
        | _ => result
      else labeledFlowWalk info use result rest
    | _ => labeledFlowWalk info use result rest

/-- gopHighlightLabeledFlow (highlight_gox.go:265-283). -/
def gopHighlightLabeledFlow (path : List Node) (info : Info) (stmt : Node) (result : List posRange) : List posRange :=
  match info.usesOf (branchLabel stmt) with
  | none => result
  | some use => labeledFlowWalk info use result path

/-- GopImportedPkgName (highlight_gox.go:473-482): the package-name
object declared by an import spec, through Defs for a named import and
Implicits otherwise, kept only when it is a PkgName object. -/
def GopImportedPkgName (info : Info) (imp : Node) : Option Obj :=
  match imp with
  | .importSpec nm _ _ _ =>
    (match (match nm with
            | some nmId => info.defs nmId.pos
            | none => info.implicits imp.pos) with
     | some o => if o.isPkgName then some o else none
     | none => none)
  | _ => none

/-- The Name string of an identifier node. -/
def identName : Node → String
  | .ident nm _ _ => nm
  | _ => ""

/-- The ast.Inspect callback of gopHighlightIdentifier
(highlight_gox.go:450-468). -/
def identCb (idName : String) (obj : Option Obj) (info : Info) (n : Node) : List posRange × Bool :=
  match n with
  | .ident nm _ _ =>
    ((if nm == idName && info.objectOf n == obj then [span n] else []), true)
  | .importSpec onm _ _ _ =>
    ((match GopImportedPkgName info n with
      | some pkgname =>
        if some pkgname == obj then
          (match onm with
           | some nmId => [span nmId]
           | none => [span n])
        else []
      | none => []), true)
  | _ => ([], true)

/-- gopHighlightIdentifier (highlight_gox.go:440-469). -/
def gopHighlightIdentifier (id : Node) (file : Node) (info : Info) (result : List posRange) : List posRange :=
  walk (identCb (identName id) (info.objectOf id) info) file ++ result

/-- The ast.Inspect callback of the import branch of gopHighlightPath
(highlight_gox.go:87-93): identifiers whose Uses entry is the imported
package name. -/
def importRefCb (info : Info) (pkgname : Obj) (n : Node) : List posRange × Bool :=
  match n with
  | .ident _ _ _ => ((if info.uses n.pos == some pkgname then [span n] else []), true)
  | _ => ([], true)

/-- gopHighlightPath (highlight_gox.go:71-133), the dispatcher on the
innermost node.  The default branch returns the empty set without an
error (the source returns nil, nil there and the only caller then emits
no ranges). -/
def gopHighlightPath (path : List Node) (file : Node) (info : Info) : List posRange :=
  match path with
  | [] => []
  | p0 :: rest =>
    match p0 with
    | .basicLit _ _ _ =>
      (match rest with
       | imp :: _ =>
         (match imp with
          | .importSpec _ _ _ _ =>
            (match GopImportedPkgName info imp with
             | some pkgname => walk (importRefCb info pkgname) file ++ [span imp]
             | none => [span imp])
          | _ => gopHighlightFuncControlFlow path [])
       | [] => gopHighlightFuncControlFlow path [])
    | .returnStmt _ _ _ => gopHighlightFuncControlFlow path []
    | .funcDecl _ _ _ _ _ => gopHighlightFuncControlFlow path []
    | .funcType _ _ _ => gopHighlightFuncControlFlow path []
    | .ident _ _ _ => gopHighlightIdentifier p0 file info (gopHighlightFuncControlFlow path [])
    | .forStmt _ _ _ | .rangeStmt _ _ _ => gopHighlightLoopControlFlow path info []
    | .switchStmt _ _ _ => gopHighlightSwitchFlow path info []
    | .branchStmt tok lbl _ _ =>
      (match tok with
       | Tok.BREAK =>
         (match lbl with
          | some _ => gopHighlightLabeledFlow path info p0 []
          | none => gopHighlightUnlabeledBreakFlow path info [])
       | Tok.CONTINUE =>
         (match lbl with
          | some _ => gopHighlightLabeledFlow path info p0 []
          | none => gopHighlightLoopControlFlow path info [])
       | _ => [])
    | _ => []

/-- Whether a node covers the half-open unit interval [off, off+1). -/
def containsOff (n : Node) (off : Nat) : Bool := n.pos ≤ off && off < n.endPos

/-- The first nonempty of two candidate paths (children are probed in
source order and the first hit wins). -/
def firstPath (a b : List Node) : List Node :=
  match a with
  | [] => b
  | p => p

mutual

/-- Modelled from the spec: the PathResolver contract (§4.1);
astutil.PathEnclosingInterval lives outside the given sources.  The
chain below an enclosing node, innermost first, of the nodes whose
extents contain the unit interval following the offset (a zero-width
position covers the single unit immediately following it); empty when
the node does not contain the offset.  The inner match probes the
children in source order and the first hit wins. -/
def pathDown (off : Nat) (n : Node) : List Node :=
  if containsOff n off then
    (match n with
     | .file ds _ _ => pathDownList off ds
     | .ident _ _ _ => []
     | .basicLit _ _ _ => []
     | .selectorExpr x sel _ _ => firstPath (pathDown off x) (pathDown off sel)
     | .keyValueExpr k v _ _ => firstPath (pathDown off k) (pathDown off v)
     | .callExpr fn args _ _ => firstPath (pathDown off fn) (pathDownList off args)
     | .field ns t _ _ => firstPath (pathDownList off ns) (pathDown off t)
     | .fieldList fs _ _ => pathDownList off fs
     | .funcType r _ _ => pathDownOpt off r
     | .funcDecl nm t b _ _ =>
       firstPath (pathDown off nm) (firstPath (pathDown off t) (pathDown off b))
     | .funcLit t b _ _ => firstPath (pathDown off t) (pathDown off b)
     | .blockStmt ss _ _ => pathDownList off ss
     | .returnStmt rs _ _ => pathDownList off rs
     | .ifStmt c b e _ _ =>
       firstPath (pathDown off c) (firstPath (pathDown off b) (pathDownOpt off e))
     | .forStmt b _ _ => pathDown off b
     | .rangeStmt b _ _ => pathDown off b
     | .switchStmt b _ _ => pathDown off b
     | .selectStmt b _ _ => pathDown off b
     | .caseClause es ss _ _ => firstPath (pathDownList off es) (pathDownList off ss)
     | .branchStmt _ lbl _ _ => pathDownOpt off lbl
     | .labeledStmt l st _ _ => firstPath (pathDown off l) (pathDown off st)
     | .importSpec nm p _ _ => firstPath (pathDownOpt off nm) (pathDown off p)
     | .exprStmt x _ _ => pathDown off x) ++ [n]
  else []
termination_by structural n

def pathDownOpt (off : Nat) : Option Node → List Node
  | none => []
  | some n => pathDown off n
termination_by structural o => o

def pathDownList (off : Nat) : List Node → List Node
  | [] => []
  | c :: cs => firstPath (pathDown off c) (pathDownList off cs)
termination_by structural l => l

end

/-- The enclosing path of an offset in a file, innermost first
(astutil.PathEnclosingInterval as used at highlight_gox.go:37). -/
def pathTo (root : Node) (off : Nat) : List Node := pathDown off root

/-- The path used by GopHighlight after the boundary fallback
(highlight_gox.go:44-55): when the innermost node is not an identifier
and the preceding unit resolves to an identifier or selector, the
preceding resolution is preferred.  The fallback for offset 0 looks
before the file start, where the resolver finds nothing, so the original
path is kept. -/
def effectivePath (file : Node) (off : Nat) : List Node :=
  match pathTo file off with
  | [] => []
  | p0 :: rest =>
    match p0 with
    | .ident _ _ _ => p0 :: rest
    | _ =>
      match off with
      | 0 => p0 :: rest
      | o + 1 =>
        (match pathTo file o with
         | [] => p0 :: rest
         | q0 :: qrest =>
           (match q0 with
            | .ident _ _ _ => q0 :: qrest
            | .selectorExpr _ _ _ _ => q0 :: qrest
            | _ => p0 :: rest))

/-- GopHighlight (highlight_gox.go:22-69) restricted to the engine
proper: package loading, coordinate conversion and the debug hook are
the external collaborators stripped here.  The error value models the
fmt.Errorf no-enclosing-position failure. -/
def GopHighlight (file : Node) (info : Info) (off : Nat) : Except String (List posRange) :=
  match pathTo file off with
  | [] => Except.error "no enclosing position found"
  | _ :: _ => Except.ok (gopHighlightPath (effectivePath file off) file info)

/-! Specification-side node-kind predicates and traversal boundaries. -/

def isIdentN : Node → Bool
  | .ident _ _ _ => true
  | _ => false

def isBasicLitN : Node → Bool
  | .basicLit _ _ _ => true
  | _ => false

def isReturnN : Node → Bool
  | .returnStmt _ _ _ => true
  | _ => false

def isFuncN : Node → Bool
  | .funcDecl _ _ _ _ _ => true
  | .funcLit _ _ _ _ => true
  | _ => false

def isFuncTypeN : Node → Bool
  | .funcType _ _ _ => true
  | _ => false

def isLoopN : Node → Bool
  | .forStmt _ _ _ => true
  | .rangeStmt _ _ _ => true
  | _ => false

def isSwitchN : Node → Bool
  | .switchStmt _ _ _ => true
  | _ => false

def isSelectN : Node → Bool
  | .selectStmt _ _ _ => true
  | _ => false

def isBranchN : Node → Bool
  | .branchStmt _ _ _ _ => true
  | _ => false

def isKeyValueN : Node → Bool
  | .keyValueExpr _ _ _ _ => true
  | _ => false

def isSelectorN : Node → Bool
  | .selectorExpr _ _ _ _ => true
  | _ => false

def isImportN : Node → Bool
  | .importSpec _ _ _ _ => true
  | _ => false

def branchTok : Node → Option Tok
  | .branchStmt t _ _ _ => some t
  | _ => none

def importName : Node → Option Node
  | .importSpec nm _ _ _ => nm
  | _ => none

/-- The descent decision of the function-exit traversal: do not descend
into nested function declarations or literals (only into the enclosing
function itself) and do not descend into a return statement once
processed. -/
def funcBoundary (root m : Node) : Bool :=
  match m with
  | .funcDecl _ _ _ _ _ => root == m
  | .funcLit _ _ _ _ => root == m
  | .returnStmt _ _ _ => false
  | _ => true

/-- The descent decision of the loop break traversal: stop at nested
loops and at any switch or select boundary. -/
def loopBoundary (loop m : Node) : Bool :=
  match m with
  | .forStmt _ _ _ => loop == m
  | .rangeStmt _ _ _ => loop == m
  | .switchStmt _ _ _ => false
  | .selectStmt _ _ _ => false
  | _ => true

/-- The descent decision of the loop continue traversal: stop only at
nested loops, descending through nested switch and select bodies. -/
def contBoundary (loop m : Node) : Bool :=
  match m with
  | .forStmt _ _ _ => loop == m
  | .rangeStmt _ _ _ => loop == m
  | _ => true

/-- The descent decision of the switch break traversal: stop at nested
switches and at any loop or select boundary. -/
def switchBoundary (sw m : Node) : Bool :=
  match m with
  | .switchStmt _ _ _ => sw == m
  | .forStmt _ _ _ => false
  | .rangeStmt _ _ _ => false
  | .selectStmt _ _ _ => false
  | _ => true

theorem loopBranchCb_descend (loop : Node) (lbl : Option Node) (info : Info) :
    (fun x => (loopBranchCb loop lbl info x).2) = loopBoundary loop :=
  funext fun m => by cases m <;> rfl

theorem loopContinueCb_descend (loop : Node) :
    (fun x => (loopContinueCb loop x).2) = contBoundary loop :=
  funext fun m => by cases m <;> rfl

theorem loopLabeledCb_descend (lbl : Option Node) (info : Info) :
    (fun x => (loopLabeledCb lbl info x).2) = fun _ => true :=
  funext fun m => by cases m <;> rfl

theorem switchBreakCb_descend (sw : Node) (lbl : Option Node) (info : Info) :
    (fun x => (switchBreakCb sw lbl info x).2) = switchBoundary sw :=
  funext fun m => by cases m <;> rfl

theorem switchLabeledCb_descend (lbl : Option Node) (info : Info) :
    (fun x => (switchLabeledCb lbl info x).2) = fun _ => true :=
  funext fun m => by cases m <;> rfl

theorem funcFlowCb_descend (encl : Node) (hAll : Bool) (idx : Int) :
    (fun x => (funcFlowCb encl hAll idx x).2) = funcBoundary encl :=
  funext fun m => by cases m <;> rfl

theorem identCb_descend (nm : String) (obj : Option Obj) (info : Info) :
    (fun x => (identCb nm obj info x).2) = fun _ => true :=
  funext fun m => by cases m <;> rfl

theorem importRefCb_descend (info : Info) (pkg : Obj) :
    (fun x => (importRefCb info pkg x).2) = fun _ => true :=
  funext fun m => by cases m <;> rfl

theorem mem_ite_singleton {α : Type} {c : Prop} [Decidable c] {a x : α} :
    a ∈ (if c then [x] else []) ↔ c ∧ a = x := by
  split <;> simp_all

theorem optNode_beq_none_iff (l : Option Node) : (l == none) = true ↔ l = none := by
  cases l with
  | none =>
    have h : ((none : Option Node) == none) = true := rfl
    simp [h]
  | some a =>
    have h : ((some a : Option Node) == none) = false := rfl
    simp [h]

theorem optNode_bne_none_iff (l : Option Node) : (l != none) = true ↔ l ≠ none := by
  cases l with
  | none =>
    have h : ((none : Option Node) != none) = false := rfl
    simp [h]
  | some a =>
    have h : ((some a : Option Node) != none) = true := rfl
    simp [h]

/-- The range highlighted for an import spec: the declared alias when
present, otherwise the whole spec. -/
def importNameSpan (m : Node) : posRange :=
  match importName m with
  | some nmId => span nmId
  | none => span m

theorem loopBranchCb_fst (loop : Node) (lbl : Option Node) (info : Info) (r : posRange) (m : Node) :
    r ∈ (loopBranchCb loop lbl info m).1 ↔
      isBranchN m = true ∧
        (branchLabel m = none ∨ info.usesOf (branchLabel m) = info.defsOf lbl) ∧ r = span m := by
  cases m <;>
    simp [loopBranchCb, isBranchN, branchLabel, mem_ite_singleton, optNode_beq_none_iff,
      Bool.or_eq_true, span]

theorem loopContinueCb_fst (loop : Node) (r : posRange) (m : Node) :
    r ∈ (loopContinueCb loop m).1 ↔ branchTok m = some Tok.CONTINUE ∧ r = span m := by
  cases m <;>
    simp [loopContinueCb, branchTok, mem_ite_singleton, span]

theorem loopLabeledCb_fst (lbl : Option Node) (info : Info) (r : posRange) (m : Node) :
    r ∈ (loopLabeledCb lbl info m).1 ↔
      isBranchN m = true ∧ branchLabel m ≠ none ∧
        info.usesOf (branchLabel m) = info.defsOf lbl ∧ r = span m := by
  cases m <;>
    simp [loopLabeledCb, isBranchN, branchLabel, mem_ite_singleton, optNode_bne_none_iff,
      Bool.and_eq_true, span, and_assoc]

theorem switchBreakCb_fst (sw : Node) (lbl : Option Node) (info : Info) (r : posRange) (m : Node) :
    r ∈ (switchBreakCb sw lbl info m).1 ↔
      branchTok m = some Tok.BREAK ∧
        (branchLabel m = none ∨ info.usesOf (branchLabel m) = info.defsOf lbl) ∧ r = span m := by
  cases m <;>
    simp [switchBreakCb, branchTok, branchLabel, mem_ite_singleton, optNode_beq_none_iff,
      Bool.or_eq_true, Bool.and_eq_true, span, and_assoc]

theorem switchLabeledCb_fst (lbl : Option Node) (info : Info) (r : posRange) (m : Node) :
    r ∈ (switchLabeledCb lbl info m).1 ↔
      branchTok m = some Tok.BREAK ∧ branchLabel m ≠ none ∧
        info.usesOf (branchLabel m) = info.defsOf lbl ∧ r = span m := by
  cases m <;>
    simp [switchLabeledCb, branchTok, branchLabel, mem_ite_singleton, optNode_bne_none_iff,
      Bool.and_eq_true, span, and_assoc]

theorem funcFlowCb_fst (encl : Node) (hAll : Bool) (idx : Int) (r : posRange) (m : Node) :
    r ∈ (funcFlowCb encl hAll idx m).1 ↔
      isReturnN m = true ∧
        (((-1 : Int) < idx ∧ idx < ((returnResults m).length : Int)) ∧
            r = span (getNode (returnResults m) idx.toNat) ∨
          ¬((-1 : Int) < idx ∧ idx < ((returnResults m).length : Int)) ∧
            hAll = true ∧ r = span m) := by
  cases m <;> simp [funcFlowCb, isReturnN, returnResults]
  case returnStmt rs p e =>
    by_cases hidx : (-1 : Int) < idx ∧ idx < (rs.length : Int)
    · simp [hidx]
    · cases hAll <;> simp [hidx]
      intro _ h1
      omega

theorem identCb_fst (nm : String) (obj : Option Obj) (info : Info) (r : posRange) (m : Node) :
    r ∈ (identCb nm obj info m).1 ↔
      (isIdentN m = true ∧ identName m = nm ∧ info.objectOf m = obj ∧ r = span m) ∨
        (∃ pkg, GopImportedPkgName info m = some pkg ∧ some pkg = obj ∧ r = importNameSpan m) := by
  cases m
  case importSpec onm pth p e =>
    have hident : isIdentN (.importSpec onm pth p e) = false := rfl
    rcases h : GopImportedPkgName info (.importSpec onm pth p e) with _ | pkg
    · simp [identCb, h, hident]
    · by_cases hobj : some pkg = obj
      · subst hobj
        rcases onm with _ | nmId <;>
          simp [identCb, h, hident, importNameSpan, importName, span]
      · simp [identCb, h, hident, hobj, importNameSpan, importName]
  all_goals
    simp [identCb, isIdentN, identName, GopImportedPkgName, importNameSpan, importName,
      mem_ite_singleton, Bool.and_eq_true, span, and_assoc]

theorem importRefCb_fst (info : Info) (pkg : Obj) (r : posRange) (m : Node) :
    r ∈ (importRefCb info pkg m).1 ↔
      isIdentN m = true ∧ info.uses m.pos = some pkg ∧ r = span m := by
  cases m <;>
    simp [importRefCb, isIdentN, Node.pos, mem_ite_singleton, span]

theorem mem_walk_loopBranchCb (loop : Node) (lbl : Option Node) (info : Info) (r : posRange)
    (root : Node) :
    r ∈ walk (loopBranchCb loop lbl info) root ↔
      ∃ b ∈ visited (loopBoundary loop) root, isBranchN b = true ∧
        (branchLabel b = none ∨ info.usesOf (branchLabel b) = info.defsOf lbl) ∧ r = span b := by
  rw [mem_walk, loopBranchCb_descend]
  exact exists_congr fun m => and_congr_right fun _ => loopBranchCb_fst loop lbl info r m

theorem mem_walk_loopContinueCb (loop : Node) (r : posRange) (root : Node) :
    r ∈ walk (loopContinueCb loop) root ↔
      ∃ b ∈ visited (contBoundary loop) root, branchTok b = some Tok.CONTINUE ∧ r = span b := by
  rw [mem_walk, loopContinueCb_descend]
  exact exists_congr fun m => and_congr_right fun _ => loopContinueCb_fst loop r m

theorem mem_walk_loopLabeledCb (lbl : Option Node) (info : Info) (r : posRange) (root : Node) :
    r ∈ walk (loopLabeledCb lbl info) root ↔
      ∃ b ∈ visited (fun _ => true) root, isBranchN b = true ∧ branchLabel b ≠ none ∧
        info.usesOf (branchLabel b) = info.defsOf lbl ∧ r = span b := by
  rw [mem_walk, loopLabeledCb_descend]
  exact exists_congr fun m => and_congr_right fun _ => loopLabeledCb_fst lbl info r m

theorem mem_walk_switchBreakCb (sw : Node) (lbl : Option Node) (info : Info) (r : posRange)
    (root : Node) :
    r ∈ walk (switchBreakCb sw lbl info) root ↔
      ∃ b ∈ visited (switchBoundary sw) root, branchTok b = some Tok.BREAK ∧
        (branchLabel b = none ∨ info.usesOf (branchLabel b) = info.defsOf lbl) ∧ r = span b := by
  rw [mem_walk, switchBreakCb_descend]
  exact exists_congr fun m => and_congr_right fun _ => switchBreakCb_fst sw lbl info r m

theorem mem_walk_switchLabeledCb (lbl : Option Node) (info : Info) (r : posRange) (root : Node) :
    r ∈ walk (switchLabeledCb lbl info) root ↔
      ∃ b ∈ visited (fun _ => true) root, branchTok b = some Tok.BREAK ∧ branchLabel b ≠ none ∧
        info.usesOf (branchLabel b) = info.defsOf lbl ∧ r = span b := by
  rw [mem_walk, switchLabeledCb_descend]
  exact exists_congr fun m => and_congr_right fun _ => switchLabeledCb_fst lbl info r m

theorem mem_walk_funcFlowCb (encl : Node) (hAll : Bool) (idx : Int) (r : posRange) (root : Node) :
    r ∈ walk (funcFlowCb encl hAll idx) root ↔
      ∃ m ∈ visited (funcBoundary encl) root, isReturnN m = true ∧
        (((-1 : Int) < idx ∧ idx < ((returnResults m).length : Int)) ∧
            r = span (getNode (returnResults m) idx.toNat) ∨
          ¬((-1 : Int) < idx ∧ idx < ((returnResults m).length : Int)) ∧
            hAll = true ∧ r = span m) := by
  rw [mem_walk, funcFlowCb_descend]
  exact exists_congr fun m => and_congr_right fun _ => funcFlowCb_fst encl hAll idx r m

theorem mem_walk_identCb (nm : String) (obj : Option Obj) (info : Info) (r : posRange)
    (root : Node) :
    r ∈ walk (identCb nm obj info) root ↔
      ∃ m ∈ visited (fun _ => true) root,
        ((isIdentN m = true ∧ identName m = nm ∧ info.objectOf m = obj ∧ r = span m) ∨
          (∃ pkg, GopImportedPkgName info m = some pkg ∧ some pkg = obj ∧
            r = importNameSpan m)) := by
  rw [mem_walk, identCb_descend]
  exact exists_congr fun m => and_congr_right fun _ => identCb_fst nm obj info r m

theorem mem_walk_importRefCb (info : Info) (pkg : Obj) (r : posRange) (root : Node) :
    r ∈ walk (importRefCb info pkg) root ↔
      ∃ m ∈ visited (fun _ => true) root, isIdentN m = true ∧
        info.uses m.pos = some pkg ∧ r = span m := by
  rw [mem_walk, importRefCb_descend]
  exact exists_congr fun m => and_congr_right fun _ => importRefCb_fst info pkg r m

theorem optNode_beq_self (x : Option Node) : (x == x) = true := by
  cases x with
  | none => rfl
  | some a =>
    have h : ((some a : Option Node) == some a) = Node.beq a a := rfl
    rw [h]
    exact Node.beq_refl a

theorem gopHighlightLoopControlFlow_none (path : List Node) (info : Info) (s : List posRange)
    (hfind : findLoop (gopLabelFor path) path = none) :
    gopHighlightLoopControlFlow path info s = s := by
  simp [gopHighlightLoopControlFlow, hfind]

theorem mem_gopHighlightLoopControlFlow (path : List Node) (info : Info) (s : List posRange)
    (loop : Node) (lbl : Option Node)
    (hfind : findLoop (gopLabelFor path) path = some (loop, lbl)) (r : posRange) :
    r ∈ gopHighlightLoopControlFlow path info s ↔
      r ∈ s ∨ r = { start := loop.pos, stop := loop.pos + "for".length } ∨
      (∃ b ∈ visited (loopBoundary loop) loop, isBranchN b = true ∧
        (branchLabel b = none ∨ info.usesOf (branchLabel b) = info.defsOf lbl) ∧ r = span b) ∨
      (∃ b ∈ visited (contBoundary loop) loop, branchTok b = some Tok.CONTINUE ∧ r = span b) ∨
      (lbl ≠ none ∧ ∃ b ∈ visited (fun _ => true) loop, isBranchN b = true ∧
        branchLabel b ≠ none ∧ info.usesOf (branchLabel b) = info.defsOf lbl ∧ r = span b) := by
  by_cases hl : lbl = none
  · have hc : (lbl == none) = true := (optNode_beq_none_iff lbl).mpr hl
    simp only [gopHighlightLoopControlFlow, hfind, hc, if_true, List.mem_append,
      List.mem_cons]
    rw [mem_walk_loopContinueCb, mem_walk_loopBranchCb]
    subst hl
    constructor
    · rintro (h | h | h | h)
      · exact .inr (.inr (.inr (.inl h)))
      · exact .inr (.inr (.inl h))
      · exact .inr (.inl h)
      · exact .inl h
    · rintro (h | h | h | h | ⟨hne, _⟩)
      · exact .inr (.inr (.inr h))
      · exact .inr (.inr (.inl h))
      · exact .inr (.inl h)
      · exact .inl h
      · exact absurd rfl hne
  · have hc : (lbl == none) = false := by
      rcases lbl with _ | x
      · exact absurd rfl hl
      · rfl
    simp only [gopHighlightLoopControlFlow, hfind, hc, Bool.false_eq_true, if_false,
      List.mem_append, List.mem_cons]
    rw [mem_walk_loopContinueCb, mem_walk_loopBranchCb, mem_walk_loopLabeledCb]
    constructor
    · rintro (h | h | h | h | h)
      · exact .inr (.inr (.inr (.inr ⟨hl, h⟩)))
      · exact .inr (.inr (.inr (.inl h)))
      · exact .inr (.inr (.inl h))
      · exact .inr (.inl h)
      · exact .inl h
    · rintro (h | h | h | h | ⟨_, h⟩)
      · exact .inr (.inr (.inr (.inr h)))
      · exact .inr (.inr (.inr (.inl h)))
      · exact .inr (.inr (.inl h))
      · exact .inr (.inl h)
      · exact .inl h

theorem gopHighlightSwitchFlow_none (path : List Node) (info : Info) (s : List posRange)
    (hfind : findSwitch (gopLabelFor path) path = none) :
    gopHighlightSwitchFlow path info s = s := by
  simp [gopHighlightSwitchFlow, hfind]

theorem mem_gopHighlightSwitchFlow (path : List Node) (info : Info) (s : List posRange)
    (sw : Node) (lbl : Option Node)
    (hfind : findSwitch (gopLabelFor path) path = some (sw, lbl)) (r : posRange) :
    r ∈ gopHighlightSwitchFlow path info s ↔
      r ∈ s ∨ r = { start := sw.pos, stop := sw.pos + "switch".length } ∨
      (∃ b ∈ visited (switchBoundary sw) sw, branchTok b = some Tok.BREAK ∧
        (branchLabel b = none ∨ info.usesOf (branchLabel b) = info.defsOf lbl) ∧ r = span b) ∨
      (lbl ≠ none ∧ ∃ b ∈ visited (fun _ => true) sw, branchTok b = some Tok.BREAK ∧
        branchLabel b ≠ none ∧ info.usesOf (branchLabel b) = info.defsOf lbl ∧ r = span b) := by
  by_cases hl : lbl = none
  · have hc : (lbl == none) = true := (optNode_beq_none_iff lbl).mpr hl
    simp only [gopHighlightSwitchFlow, hfind, hc, if_true, List.mem_append, List.mem_cons]
    rw [mem_walk_switchBreakCb]
    subst hl
    constructor
    · rintro (h | h | h)
      · exact .inr (.inr (.inl h))
      · exact .inr (.inl h)
      · exact .inl h
    · rintro (h | h | h | ⟨hne, _⟩)
      · exact .inr (.inr h)
      · exact .inr (.inl h)
      · exact .inl h
      · exact absurd rfl hne
  · have hc : (lbl == none) = false := by
      rcases lbl with _ | x
      · exact absurd rfl hl
      · rfl
    simp only [gopHighlightSwitchFlow, hfind, hc, Bool.false_eq_true, if_false,
      List.mem_append, List.mem_cons]
    rw [mem_walk_switchBreakCb, mem_walk_switchLabeledCb]
    constructor
    · rintro (h | h | h | h)
      · exact .inr (.inr (.inr ⟨hl, h⟩))
      · exact .inr (.inr (.inl h))
      · exact .inr (.inl h)
      · exact .inl h
    · rintro (h | h | h | ⟨_, h⟩)
      · exact .inr (.inr (.inr h))
      · exact .inr (.inr (.inl h))
      · exact .inr (.inl h)
      · exact .inl h

theorem findLoop_head (n : Node) (rest : List Node) (h : isLoopN n = true) :
    findLoop (gopLabelFor (n :: rest)) (n :: rest) = some (n, gopLabelFor (n :: rest)) := by
  cases n <;> simp [isLoopN] at h
  all_goals simp [findLoop, optNode_beq_self]

theorem findSwitch_head (n : Node) (rest : List Node) (h : isSwitchN n = true) :
    findSwitch (gopLabelFor (n :: rest)) (n :: rest) = some (n, gopLabelFor (n :: rest)) := by
  cases n <;> simp [isSwitchN] at h
  all_goals simp [findSwitch, optNode_beq_self]

theorem unlabeledBreakWalk_eq (path : List Node) (info : Info) (s : List posRange)
    (l : List Node) :
    unlabeledBreakWalk path info s l =
      match l.find? (fun n => isLoopN n || isSwitchN n || isSelectN n) with
      | some n => if isLoopN n then gopHighlightLoopControlFlow path info s
                  else if isSwitchN n then gopHighlightSwitchFlow path info s
                  else s
      | none => s := by
  induction l with
  | nil => rfl
  | cons n rest ih =>
    cases n <;>
      simp [unlabeledBreakWalk, List.find?_cons, isLoopN, isSwitchN, isSelectN, ih]

/-! Concrete example trees and semantic tables used by witnesses and
counterexamples. -/

/-- Example: func f() int { if c { return 1 }; return 2 }. -/
def fIdent : Node := .ident "f" 5 6
def resTy : Node := .ident "int" 9 12
def resField : Node := .field [] resTy 9 12
def resList : Node := .fieldList [resField] 9 12
def fType : Node := .funcType (some resList) 0 12
def cIdent : Node := .ident "c" 17 18
def oneLit : Node := .basicLit "1" 28 29
def ret1 : Node := .returnStmt [oneLit] 21 29
def innerBlock : Node := .blockStmt [ret1] 19 31
def ifNode : Node := .ifStmt cIdent innerBlock none 14 31
def twoLit : Node := .basicLit "2" 40 41
def ret2 : Node := .returnStmt [twoLit] 33 41
def fBody : Node := .blockStmt [ifNode, ret2] 13 43
def fDecl : Node := .funcDecl fIdent fType fBody 0 43
def file1 : Node := .file [fDecl] 0 44
def path1a : List Node := [ret1, innerBlock, ifNode, fBody, fDecl, file1]
def path1b : List Node := [oneLit, ret1, innerBlock, ifNode, fBody, fDecl, file1]

/-- The all-empty semantic table. -/
def info0 : Info := { defs := fun _ => none, uses := fun _ => none, implicits := fun _ => none }

/-- Example: for { continue Other } with the label Other resolving to a
real binding (an outer labeled loop not part of this tree). -/
def otherId : Node := .ident "Other" 15 20
def contOther : Node := .branchStmt .CONTINUE (some otherId) 6 20
def loopBody : Node := .blockStmt [contOther] 4 29
def exLoop : Node := .forStmt loopBody 0 30
def infoC3 : Info :=
  { defs := fun _ => none
    uses := fun p => if p = 15 then some ⟨1, false⟩ else none
    implicits := fun _ => none }

/-- Example: for { switch { case: break } } with the cursor path rooted
at the break statement. -/
def brk3 : Node := .branchStmt .BREAK none 20 25
def case3 : Node := .caseClause [] [brk3] 14 26
def swBody3 : Node := .blockStmt [case3] 13 27
def sw3 : Node := .switchStmt swBody3 6 28
def forBody3 : Node := .blockStmt [sw3] 4 30
def for3 : Node := .forStmt forBody3 0 31
def path5 : List Node := [brk3, case3, swBody3, sw3, forBody3, for3]

/-- Example for label shadowing: break L inside L: for { ... }, with a
different labeled statement also named L closer to the cursor. -/
def l1Id : Node := .ident "L" 0 1
def l2Id : Node := .ident "L" 10 11
def useId : Node := .ident "L" 40 41
def brkL : Node := .branchStmt .BREAK (some useId) 34 41
def for1Body : Node := .blockStmt [brkL] 30 45
def for1 : Node := .forStmt for1Body 26 46
def lab1 : Node := .labeledStmt l1Id for1 0 46
def innerFor : Node := .forStmt (.blockStmt [] 14 15) 12 16
def lab2 : Node := .labeledStmt l2Id innerFor 10 16
def infoC6 : Info :=
  { defs := fun p => if p = 0 then some ⟨7, false⟩ else if p = 10 then some ⟨8, false⟩ else none
    uses := fun p => if p = 40 then some ⟨7, false⟩ else none
    implicits := fun _ => none }
def path6 : List Node := [brkL, for1Body, lab2, lab1]

/-- Example: unlabeled loop containing break U where U has no semantic
use entry. -/
def unresId : Node := .ident "U" 15 16
def brkU : Node := .branchStmt .BREAK (some unresId) 6 16
def loopBodyU : Node := .blockStmt [brkU] 4 20
def exLoopU : Node := .forStmt loopBodyU 0 21

/-- Example: unlabeled switch containing break U where U has no semantic
use entry. -/
def identU2 : Node := .ident "U" 17 18
def brkU2 : Node := .branchStmt .BREAK (some identU2) 8 18
def caseU : Node := .caseClause [] [brkU2] 7 19
def swBodyU : Node := .blockStmt [caseU] 6 20
def swU : Node := .switchStmt swBodyU 0 22

/-- Example file with three expression-statement identifiers x, y, x
where both occurrences of x resolve to the same object. -/
def x1 : Node := .ident "x" 1 2
def y1 : Node := .ident "y" 4 5
def x2 : Node := .ident "x" 7 8
def file2 : Node := .file [.exprStmt x1 1 2, .exprStmt y1 4 5, .exprStmt x2 7 8] 0 10
def infoC2 : Info :=
  { defs := fun p => if p = 1 then some ⟨1, false⟩ else if p = 4 then some ⟨2, false⟩ else none
    uses := fun p => if p = 7 then some ⟨1, false⟩ else none
    implicits := fun _ => none }

/-- Claim C3, counterexample: the claim requires a continue found by the
body traversal to be highlighted only when its label is absent or
resolves to the enclosing loop label binding.  In the loop
for { continue Other } the label Other resolves to a real object while
the loop carries no label, so the condition fails, yet the full span of
the continue statement is in the result: the continue pass of
gopHighlightLoopControlFlow adds every continue it reaches without any
label check. -/
theorem C3_counterexample :
    findLoop (gopLabelFor [exLoop]) [exLoop] = some (exLoop, none) ∧
    contOther ∈ visited (contBoundary exLoop) exLoop ∧
    contOther ∈ visited (loopBoundary exLoop) exLoop ∧
    branchTok contOther = some Tok.CONTINUE ∧
    branchLabel contOther ≠ none ∧
    infoC3.usesOf (branchLabel contOther) ≠ infoC3.defsOf none ∧
    span contOther ∈ gopHighlightLoopControlFlow [exLoop] infoC3 [] := by
  refine ⟨by decide, by decide, by decide, by decide, by decide, by decide, by decide⟩

/-- Claim C3, amended: during loop-exit highlighting of a selected loop
with label binding lbl, a range is added exactly when it is the for
keyword span, the span of a branch statement found by the break
traversal whose label is absent or resolves to lbl, the span of a
continue statement found by the continue traversal regardless of its
label, or, when the loop is labeled, the span of a labeled branch
statement anywhere beneath the loop whose label resolves to lbl.
Furthermore the break traversal stops at nested switch and select
boundaries, the continue traversal descends through them, and both stop
at any nested loop other than the selected loop itself. -/
theorem C3_amended_loop_highlighting
    (path : List Node) (info : Info) (s : List posRange) (loop : Node) (lbl : Option Node)
    (hfind : findLoop (gopLabelFor path) path = some (loop, lbl)) :
    (∀ r : posRange,
      r ∈ gopHighlightLoopControlFlow path info s ↔
        r ∈ s ∨ r = { start := loop.pos, stop := loop.pos + "for".length } ∨
        (∃ b ∈ visited (loopBoundary loop) loop, isBranchN b = true ∧
          (branchLabel b = none ∨ info.usesOf (branchLabel b) = info.defsOf lbl) ∧ r = span b) ∨
        (∃ b ∈ visited (contBoundary loop) loop, branchTok b = some Tok.CONTINUE ∧ r = span b) ∨
        (lbl ≠ none ∧ ∃ b ∈ visited (fun _ => true) loop, isBranchN b = true ∧
          branchLabel b ≠ none ∧ info.usesOf (branchLabel b) = info.defsOf lbl ∧ r = span b)) ∧
    (∀ m, (isSwitchN m || isSelectN m) = true → (loopBranchCb loop lbl info m).2 = false) ∧
    (∀ m, (isSwitchN m || isSelectN m) = true → (loopContinueCb loop m).2 = true) ∧
    (∀ m, isLoopN m = true → (loopBranchCb loop lbl info m).2 = (loop == m) ∧
      (loopContinueCb loop m).2 = (loop == m)) := by
  refine ⟨fun r => mem_gopHighlightLoopControlFlow path info s loop lbl hfind r, ?_, ?_, ?_⟩
  · intro m hm
    cases m <;> simp_all [isSwitchN, isSelectN, loopBranchCb]
  · intro m hm
    cases m <;> simp_all [isSwitchN, isSelectN, loopContinueCb]
  · intro m hm
    cases m <;> simp_all [isLoopN, loopBranchCb, loopContinueCb]

/-- Witness for the amended claim C3 at the concrete loop
for { continue Other }: the continue span is in the result through the
continue-traversal disjunct. -/
theorem C3_amended_loop_highlighting_witness :
    span contOther ∈ gopHighlightLoopControlFlow [exLoop] infoC3 [] := by
  have h := (C3_amended_loop_highlighting [exLoop] infoC3 [] exLoop none (by decide)).1
    (span contOther)
  exact h.mpr (.inr (.inr (.inr (.inl ⟨contOther, by decide, by decide, rfl⟩))))

/-- Claim C10: when the loop (or switch) selected for control-flow
highlighting carries no label, a branch statement found by the
corresponding break traversal that carries a label with no semantic use
entry is still highlighted in full, because the comparison equates the
no-binding value on both sides (Uses of the branch label and Defs of the
absent construct label are both nil). -/
theorem C10_nilLabel_comparison (path : List Node) (info : Info) (s : List posRange) :
    (∀ loop b l, findLoop (gopLabelFor path) path = some (loop, none) →
      b ∈ visited (loopBoundary loop) loop → isBranchN b = true →
      branchLabel b = some l → info.usesOf (branchLabel b) = none →
      span b ∈ gopHighlightLoopControlFlow path info s) ∧
    (∀ sw b l, findSwitch (gopLabelFor path) path = some (sw, none) →
      b ∈ visited (switchBoundary sw) sw → branchTok b = some Tok.BREAK →
      branchLabel b = some l → info.usesOf (branchLabel b) = none →
      span b ∈ gopHighlightSwitchFlow path info s) := by
  constructor
  · intro loop b l hfind hb hbr _ huse
    rw [mem_gopHighlightLoopControlFlow path info s loop none hfind]
    exact .inr (.inr (.inl ⟨b, hb, hbr, .inr (by rw [huse]; rfl), rfl⟩))
  · intro sw b l hfind hb hbr _ huse
    rw [mem_gopHighlightSwitchFlow path info s sw none hfind]
    exact .inr (.inr (.inl ⟨b, hb, hbr, .inr (by rw [huse]; rfl), rfl⟩))

/-- Witness for claim C10 at the unlabeled loop containing break U and
the unlabeled switch containing break U, U unresolved in both. -/
theorem C10_nilLabel_comparison_witness :
    span brkU ∈ gopHighlightLoopControlFlow [exLoopU] info0 [] ∧
    span brkU2 ∈ gopHighlightSwitchFlow [swU] info0 [] := by
  constructor
  · exact (C10_nilLabel_comparison [exLoopU] info0 []).1 exLoopU brkU unresId (by decide)
      (by decide) (by decide) (by decide) (by decide)
  · exact (C10_nilLabel_comparison [swU] info0 []).2 swU brkU2 identU2 (by decide)
      (by decide) (by decide) (by decide) (by decide)

/-- Example: switch { case: break; for { break } } with an unlabeled
break directly in the case and another inside a nested loop. -/
def brkA : Node := .branchStmt .BREAK none 10 15
def brkB : Node := .branchStmt .BREAK none 24 29
def forB : Node := .forStmt (.blockStmt [brkB] 22 31) 18 32
def caseA : Node := .caseClause [] [brkA, forB] 8 33
def swBody4 : Node := .blockStmt [caseA] 7 34
def sw4 : Node := .switchStmt swBody4 0 35

/-- Claim C4: switch-exit highlighting adds the 6-character switch
keyword span at the switch start offset; every further range it adds is
the full span of a break statement (never a continue); and the descent
decision of its body traversal refuses nested loops and selects and
stops at nested switches, independently of any label on the branch or
on the switch. -/
theorem C4_switch_exit (sw : Node) (rest : List Node) (info : Info) (s : List posRange)
    (hsw : isSwitchN sw = true) :
    ({ start := sw.pos, stop := sw.pos + 6 } : posRange) ∈
        gopHighlightSwitchFlow (sw :: rest) info s ∧
    (∀ r ∈ gopHighlightSwitchFlow (sw :: rest) info s,
      r ∈ s ∨ r = { start := sw.pos, stop := sw.pos + 6 } ∨
        ∃ b, branchTok b = some Tok.BREAK ∧ r = span b) ∧
    (∀ lbl : Option Node, ∀ m, (isLoopN m || isSelectN m) = true →
      (switchBreakCb sw lbl info m).2 = false) ∧
    (∀ lbl : Option Node, ∀ m, isSwitchN m = true →
      (switchBreakCb sw lbl info m).2 = (sw == m)) := by
  have hfind := findSwitch_head sw rest hsw
  have hlen : ("switch".length : Nat) = 6 := rfl
  have hmem := mem_gopHighlightSwitchFlow (sw :: rest) info s sw (gopLabelFor (sw :: rest)) hfind
  refine ⟨?_, ?_, ?_, ?_⟩
  · have hkw : ({ start := sw.pos, stop := sw.pos + 6 } : posRange) =
        { start := sw.pos, stop := sw.pos + "switch".length } := by rw [hlen]
    rw [hkw]
    exact (hmem _).mpr (.inr (.inl rfl))
  · intro r hr
    rcases (hmem r).mp hr with h | h | h | h
    · exact .inl h
    · refine .inr (.inl ?_)
      rw [h, hlen]
    · obtain ⟨b, _, htok, _, hspan⟩ := h
      exact .inr (.inr ⟨b, htok, hspan⟩)
    · obtain ⟨_, b, _, htok, _, _, hspan⟩ := h
      exact .inr (.inr ⟨b, htok, hspan⟩)
  · intro lbl m hm
    cases m <;> first
      | rfl
      | (exfalso; simp [isLoopN, isSelectN] at hm)
  · intro lbl m hm
    cases m <;> first
      | rfl
      | (exfalso; simp [isSwitchN] at hm)

/-- Witness for claim C4 at the concrete switch containing a direct
break and a nested loop. -/
theorem C4_switch_exit_witness :
    ({ start := 0, stop := 6 } : posRange) ∈ gopHighlightSwitchFlow [sw4] info0 [] ∧
    (∀ r ∈ gopHighlightSwitchFlow [sw4] info0 [], r ∈ ([] : List posRange) ∨
      r = { start := 0, stop := 6 } ∨ ∃ b, branchTok b = some Tok.BREAK ∧ r = span b) := by
  have h := C4_switch_exit sw4 [] info0 [] (by decide)
  exact ⟨h.1, h.2.1⟩

/-- Claim C5: for a cursor on an unlabeled break statement the dispatch
walks the enclosing path outward and routes to the first enclosing loop
or switch (first match wins); a select as the first enclosing construct
yields the unchanged (empty) result; and in the concrete nesting
for { switch { case: break } } the cursor path rooted at the break
highlights the switch keyword and that break but never the enclosing
for keyword. -/
theorem C5_unlabeled_break_dispatch (path : List Node) (info : Info) (s : List posRange) :
    ((∀ n, path.find? (fun m => isLoopN m || isSwitchN m || isSelectN m) = some n →
        (isLoopN n = true → gopHighlightUnlabeledBreakFlow path info s =
            gopHighlightLoopControlFlow path info s) ∧
        (isSwitchN n = true → gopHighlightUnlabeledBreakFlow path info s =
            gopHighlightSwitchFlow path info s) ∧
        (isSelectN n = true → gopHighlightUnlabeledBreakFlow path info s = s)) ∧
      (path.find? (fun m => isLoopN m || isSwitchN m || isSelectN m) = none →
        gopHighlightUnlabeledBreakFlow path info s = s)) ∧
    (gopHighlightUnlabeledBreakFlow path5 info0 [] = gopHighlightSwitchFlow path5 info0 [] ∧
      ({ start := 6, stop := 12 } : posRange) ∈ gopHighlightUnlabeledBreakFlow path5 info0 [] ∧
      span brk3 ∈ gopHighlightUnlabeledBreakFlow path5 info0 [] ∧
      ({ start := 0, stop := 3 } : posRange) ∉ gopHighlightUnlabeledBreakFlow path5 info0 []) := by
  constructor
  · constructor
    · intro n hfind
      have he := unlabeledBreakWalk_eq path info s path
      refine ⟨?_, ?_, ?_⟩ <;> intro hk
      · simp only [gopHighlightUnlabeledBreakFlow, he, hfind]
        simp [hk]
      · have h1 : isLoopN n = false := by
          cases n <;> first
            | rfl
            | (exfalso; simp [isSwitchN] at hk)
        simp only [gopHighlightUnlabeledBreakFlow, he, hfind]
        simp [h1, hk]
      · have h1 : isLoopN n = false := by
          cases n <;> first
            | rfl
            | (exfalso; simp [isSelectN] at hk)
        have h2 : isSwitchN n = false := by
          cases n <;> first
            | rfl
            | (exfalso; simp [isSelectN] at hk)
        simp only [gopHighlightUnlabeledBreakFlow, he, hfind]
        simp [h1, h2]
    · intro hfind
      simp only [gopHighlightUnlabeledBreakFlow, unlabeledBreakWalk_eq path info s path, hfind]
  · refine ⟨by decide, by decide, by decide, by decide⟩

/-- Witness for claim C5: applying the dispatch routing at the concrete
nested for/switch path whose first enclosing construct is the switch. -/
theorem C5_unlabeled_break_dispatch_witness :
    gopHighlightUnlabeledBreakFlow path5 info0 [] = gopHighlightSwitchFlow path5 info0 [] := by
  have h := (C5_unlabeled_break_dispatch path5 info0 []).1.1 sw3 (by decide)
  exact h.2.1 (by decide)

/-- The label-matching predicate of gopHighlightLabeledFlow: a labeled
statement whose label declaration object equals the resolved (non-nil)
use of the branch label. -/
def labelMatches (info : Info) (use : Obj) (n : Node) : Bool :=
  match n with
  | .labeledStmt lbl _ _ _ => info.defs lbl.pos == some use
  | _ => false

/-- The routing step of gopHighlightLabeledFlow once the labeled
statement is found: loop highlighting for a labeled for/range, switch
highlighting for a labeled switch, nothing otherwise. -/
def labeledRoute (info : Info) (s : List posRange) (n : Node) : List posRange :=
  match n with
  | .labeledStmt _ st _ _ =>
    (match st with
     | .forStmt _ _ _ => gopHighlightLoopControlFlow [st, n] info s
     | .rangeStmt _ _ _ => gopHighlightLoopControlFlow [st, n] info s
     | .switchStmt _ _ _ => gopHighlightSwitchFlow [st, n] info s
     | _ => s)
  | _ => s

theorem labeledFlowWalk_eq (info : Info) (use : Obj) (s : List posRange) (l : List Node) :
    labeledFlowWalk info use s l =
      match l.find? (labelMatches info use) with
      | some n => labeledRoute info s n
      | none => s := by
  induction l with
  | nil => rfl
  | cons n rest ih =>
    cases n with
    | labeledStmt lbl st p e =>
      rcases hb : info.defs lbl.pos == some use with _ | _
      · simp only [labeledFlowWalk, hb, Bool.false_eq_true, if_false, ih,
          List.find?_cons, labelMatches]
      · cases st <;>
          simp only [labeledFlowWalk, hb, if_true, List.find?_cons, labelMatches,
            labeledRoute]
    | _ =>
      simp only [labeledFlowWalk, List.find?_cons, labelMatches, ih]

/-- Claim C6: for a labeled break or continue the target labeled
statement is selected by semantic identity, the object in Uses for the
branch label compared for equality with the object in Defs for the label
declaration, never by comparing label names as text; a branch whose
label has no semantic use entry raises no error and contributes no
ranges.  The last group instantiates the name-shadowing case: of two
labeled statements both named L, the one whose Defs entry equals the Uses
entry of the branch label is chosen even though the other is closer. -/
theorem C6_labeled_semantic_identity (path : List Node) (info : Info) (stmt : Node)
    (s : List posRange) :
    (info.usesOf (branchLabel stmt) = none →
      gopHighlightLabeledFlow path info stmt s = s) ∧
    (∀ tok lblId p e rest file, (tok = Tok.BREAK ∨ tok = Tok.CONTINUE) →
      info.usesOf (some lblId) = none →
      gopHighlightPath (.branchStmt tok (some lblId) p e :: rest) file info = []) ∧
    (∀ use, info.usesOf (branchLabel stmt) = some use →
      gopHighlightLabeledFlow path info stmt s =
        match path.find? (labelMatches info use) with
        | some n => labeledRoute info s n
        | none => s) ∧
    (gopHighlightLabeledFlow path6 infoC6 brkL [] =
        gopHighlightLoopControlFlow [for1, lab1] infoC6 [] ∧
      identName l2Id = identName l1Id ∧
      infoC6.defs l2Id.pos ≠ infoC6.defs l1Id.pos ∧
      infoC6.usesOf (branchLabel brkL) = infoC6.defs l1Id.pos ∧
      ({ start := 26, stop := 29 } : posRange) ∈ gopHighlightLabeledFlow path6 infoC6 brkL [] ∧
      span brkL ∈ gopHighlightLabeledFlow path6 infoC6 brkL [] ∧
      ({ start := 12, stop := 15 } : posRange) ∉ gopHighlightLabeledFlow path6 infoC6 brkL []) := by
  refine ⟨?_, ?_, ?_, by decide, by decide, by decide, by decide, by decide, by decide,
    by decide⟩
  · intro h
    simp [gopHighlightLabeledFlow, h]
  · intro tok lblId p e rest file htok h
    have hlbl : branchLabel (.branchStmt tok (some lblId) p e) = some lblId := rfl
    rcases htok with rfl | rfl <;>
      simp [gopHighlightPath, gopHighlightLabeledFlow, hlbl, h]
  · intro use h
    simp [gopHighlightLabeledFlow, h, labeledFlowWalk_eq]

/-- Witness for claim C6: the unresolved-label part and the semantic
selection part applied at the shadowing example. -/
theorem C6_labeled_semantic_identity_witness :
    gopHighlightLabeledFlow [lab2, lab1] info0 brkL [] = [] ∧
    gopHighlightLabeledFlow path6 infoC6 brkL [] =
      match path6.find? (labelMatches infoC6 ⟨7, false⟩) with
      | some n => labeledRoute infoC6 [] n
      | none => [] := by
  constructor
  · exact (C6_labeled_semantic_identity [lab2, lab1] info0 brkL []).1 (by decide)
  · exact (C6_labeled_semantic_identity path6 infoC6 brkL []).2.2.1 ⟨7, false⟩ (by decide)

/-- The node kinds the dispatcher gopHighlightPath recognizes; every
other innermost kind falls to the default branch. -/
def recognizedKind : Node → Bool
  | .basicLit _ _ _ => true
  | .returnStmt _ _ _ => true
  | .funcDecl _ _ _ _ _ => true
  | .funcType _ _ _ => true
  | .ident _ _ _ => true
  | .forStmt _ _ _ => true
  | .rangeStmt _ _ _ => true
  | .switchStmt _ _ _ => true
  | .branchStmt _ _ _ _ => true
  | _ => false

theorem pathTo_nil_iff (file : Node) (off : Nat) :
    pathTo file off = [] ↔ containsOff file off = false := by
  rcases hc : containsOff file off with _ | _
  · cases file <;> simp [pathTo, pathDown, hc]
  · cases file <;> simp [pathTo, pathDown, hc]

theorem gopHighlightPath_unrecognized (p0 : Node) (rest : List Node) (file : Node)
    (info : Info) (h : recognizedKind p0 = false) :
    gopHighlightPath (p0 :: rest) file info = [] := by
  cases p0 <;> simp [recognizedKind] at h <;> rfl

/-- Claim C7: the Highlight operation returns the no-enclosing-node
error exactly when the offset lies outside the file extent (so that no
node contains it); for every other input whose effective innermost node
is of an unrecognized kind it returns the empty set with no error. -/
theorem C7_error_and_empty (file : Node) (info : Info) (off : Nat) :
    ((∃ msg, GopHighlight file info off = .error msg) ↔ containsOff file off = false) ∧
    (pathTo file off = [] ↔ containsOff file off = false) ∧
    (∀ p0 rest, effectivePath file off = p0 :: rest → recognizedKind p0 = false →
      GopHighlight file info off = .ok []) := by
  refine ⟨?_, pathTo_nil_iff file off, ?_⟩
  · constructor
    · rintro ⟨msg, hmsg⟩
      rcases hp : pathTo file off with _ | ⟨q, qs⟩
      · exact (pathTo_nil_iff file off).mp hp
      · rw [GopHighlight, hp] at hmsg
        simp at hmsg
    · intro hc
      have hp : pathTo file off = [] := (pathTo_nil_iff file off).mpr hc
      exact ⟨"no enclosing position found", by rw [GopHighlight, hp]⟩
  · intro p0 rest heff hrec
    rcases hp : pathTo file off with _ | ⟨q, qs⟩
    · rw [effectivePath, hp] at heff
      simp at heff
    · rw [GopHighlight, hp, heff, gopHighlightPath_unrecognized p0 rest file info hrec]

/-- Witness for claim C7 at the example file: an offset past the end of
the file yields the error, and an offset whose innermost node is the
function body block yields the empty set without error. -/
theorem C7_error_and_empty_witness :
    (∃ msg, GopHighlight file1 info0 45 = .error msg) ∧
    GopHighlight file1 info0 13 = .ok [] := by
  constructor
  · exact ((C7_error_and_empty file1 info0 45).1).mpr (by decide)
  · exact (C7_error_and_empty file1 info0 13).2.2 fBody [fDecl, file1] (by decide) (by decide)

theorem effectivePath_ident (file : Node) (off : Nat) (p0 : Node) (rest : List Node)
    (hpath : pathTo file off = p0 :: rest) (hident : isIdentN p0 = true) :
    effectivePath file off = pathTo file off := by
  rw [effectivePath, hpath]
  cases p0 <;> simp [isIdentN] at hident ⊢

theorem effectivePath_fallback (file : Node) (o : Nat) (p0 q0 : Node) (rest qrest : List Node)
    (hpath : pathTo file (o + 1) = p0 :: rest) (hident : isIdentN p0 = false)
    (hq : pathTo file o = q0 :: qrest) (hq0 : (isIdentN q0 || isSelectorN q0) = true) :
    effectivePath file (o + 1) = pathTo file o := by
  rw [effectivePath, hpath]
  cases p0 <;> simp [isIdentN] at hident ⊢ <;>
    (rw [hq]; cases q0 <;> simp [isIdentN, isSelectorN] at hq0 ⊢)

/-- Claim C8: when the innermost node of the primary path resolution is
not an identifier, the resolver recomputes the path one unit before the
offset and prefers that alternate path when its innermost node is an
identifier or a selector; consequently an offset at the boundary
directly after the last character of an identifier resolves to the same
path as the offset just inside that identifier, as instantiated at the
example file on the boundary offset after the function name. -/
theorem C8_boundary_fallback (file : Node) (off : Nat) :
    (∀ p0 rest, pathTo file off = p0 :: rest → isIdentN p0 = true →
      effectivePath file off = pathTo file off) ∧
    (∀ o p0 q0 rest qrest, off = o + 1 → pathTo file off = p0 :: rest →
      isIdentN p0 = false → pathTo file o = q0 :: qrest →
      (isIdentN q0 || isSelectorN q0) = true →
      effectivePath file off = pathTo file o) ∧
    (∀ o p0 q0 rest qrest, off = o + 1 → pathTo file off = p0 :: rest →
      isIdentN p0 = false → pathTo file o = q0 :: qrest → isIdentN q0 = true →
      effectivePath file off = effectivePath file o) ∧
    (fIdent.endPos = 6 ∧ effectivePath file1 6 = effectivePath file1 5 ∧
      effectivePath file1 6 = [fIdent, fDecl, file1]) := by
  refine ⟨?_, ?_, ?_, by decide, by decide, by decide⟩
  · intro p0 rest hpath hident
    exact effectivePath_ident file off p0 rest hpath hident
  · rintro o p0 q0 rest qrest rfl hpath hident hq hq0
    exact effectivePath_fallback file o p0 q0 rest qrest hpath hident hq hq0
  · rintro o p0 q0 rest qrest rfl hpath hident hq hq0
    rw [effectivePath_fallback file o p0 q0 rest qrest hpath hident hq (by simp [hq0]),
      effectivePath_ident file o q0 qrest hq hq0]

/-- Witness for claim C8: the fallback rule applied at the boundary
offset 6 directly after the identifier f of the example file. -/
theorem C8_boundary_fallback_witness :
    effectivePath file1 6 = pathTo file1 5 := by
  exact (C8_boundary_fallback file1 6).2.1 5 fType fIdent [fDecl, file1] [fDecl, file1]
    rfl (by decide) (by decide) (by decide) (by decide)

/-- Example path: cursor on the key identifier of a key-value element
inside a return statement of a function. -/
def kIdent : Node := .ident "k" 10 11
def vIdent : Node := .ident "v" 13 14
def kvNode : Node := .keyValueExpr kIdent vIdent 10 14
def ret9 : Node := .returnStmt [kvNode] 4 15
def fBody9 : Node := .blockStmt [ret9] 3 16
def fDecl9 : Node := .funcDecl (.ident "g" 1 2) (.funcType none 0 2) fBody9 0 17
def path9 : List Node := [kIdent, kvNode, ret9, fBody9, fDecl9]

theorem funcFlowWalkAux_none (p0 : Node) :
    ∀ (l : List Node) (j : Nat) (prev retSt : Option Node) (inRet : Bool),
      (∀ i ≤ j, ∀ m, l.get? i = some m → isFuncN m = false) →
      (∃ kv, l.get? j = some kv ∧ isKeyValueN kv = true) →
      funcFlowWalkAux p0 prev retSt inRet l = none := by
  intro l
  induction l with
  | nil =>
    rintro j _ _ _ _ ⟨kv, hkv, _⟩
    simp at hkv
  | cons n rest ih =>
    rintro j prev retSt inRet hnf ⟨kv, hkv, hiskv⟩
    have hheadnf : isFuncN n = false := hnf 0 (Nat.zero_le j) n rfl
    cases j with
    | zero =>
      have : n = kv := by simpa using hkv
      subst this
      cases n <;> simp [isKeyValueN] at hiskv
      rfl
    | succ j' =>
      have hrest : ∀ i ≤ j', ∀ m, rest.get? i = some m → isFuncN m = false := by
        intro i hi m hm
        exact hnf (i + 1) (Nat.succ_le_succ hi) m (by simpa using hm)
      have hkv' : ∃ kv, rest.get? j' = some kv ∧ isKeyValueN kv = true :=
        ⟨kv, by simpa using hkv, hiskv⟩
      cases n with
      | keyValueExpr k v p e => rfl
      | callExpr fn args p e =>
        cases prev with
        | none => exact ih j' _ _ _ hrest hkv'
        | some pr =>
          rcases hc : args.contains pr with _ | _
          · simp only [funcFlowWalkAux, hc, Bool.false_eq_true, if_false]
            exact ih j' _ _ _ hrest hkv'
          · simp only [funcFlowWalkAux, hc, if_true]
        
      | funcDecl nm t b p e => simp [isFuncN] at hheadnf
      | funcLit t b p e => simp [isFuncN] at hheadnf
      | field ns t p e => exact ih j' _ _ _ hrest hkv'
      | returnStmt rs p e => exact ih j' _ _ _ hrest hkv'
      | file ds p e => exact ih j' _ _ _ hrest hkv'
      | ident s p e => exact ih j' _ _ _ hrest hkv'
      | basicLit s p e => exact ih j' _ _ _ hrest hkv'
      | selectorExpr x sel p e => exact ih j' _ _ _ hrest hkv'
      | fieldList fs p e => exact ih j' _ _ _ hrest hkv'
      | funcType r p e => exact ih j' _ _ _ hrest hkv'
      | blockStmt ss p e => exact ih j' _ _ _ hrest hkv'
      | ifStmt c b e1 p e => exact ih j' _ _ _ hrest hkv'
      | forStmt b p e => exact ih j' _ _ _ hrest hkv'
      | rangeStmt b p e => exact ih j' _ _ _ hrest hkv'
      | switchStmt b p e => exact ih j' _ _ _ hrest hkv'
      | selectStmt b p e => exact ih j' _ _ _ hrest hkv'
      | caseClause es ss p e => exact ih j' _ _ _ hrest hkv'
      | branchStmt t o p e => exact ih j' _ _ _ hrest hkv'
      | labeledStmt lb st p e => exact ih j' _ _ _ hrest hkv'
      | importSpec nm pth p e => exact ih j' _ _ _ hrest hkv'
      | exprStmt x p e => exact ih j' _ _ _ hrest hkv'

/-- Claim C9: when some entry of the cursor path up to and including
position j is a key-value expression and no entry up to j is a function
declaration or literal (in particular, when a key-value element sits
strictly between the cursor node and its nearest enclosing function),
function-exit highlighting contributes no ranges at all, even when that
key-value expression sits inside the expression list of a return
statement. -/
theorem C9_keyvalue_blocks_funcflow (path : List Node) (s : List posRange) (j : Nat)
    (hnf : ∀ i ≤ j, ∀ m, path.get? i = some m → isFuncN m = false)
    (hkv : ∃ kv, path.get? j = some kv ∧ isKeyValueN kv = true) :
    gopHighlightFuncControlFlow path s = s := by
  cases path with
  | nil => rfl
  | cons p0 rest =>
    have h := funcFlowWalkAux_none p0 (p0 :: rest) j none none false hnf hkv
    simp [gopHighlightFuncControlFlow, funcFlowWalk, h]

/-- Witness for claim C9 at the path rooted at the key identifier of a
key-value element inside a return statement. -/
theorem C9_keyvalue_blocks_funcflow_witness :
    gopHighlightFuncControlFlow path9 [] = [] := by
  refine C9_keyvalue_blocks_funcflow path9 [] 1 ?_ ⟨kvNode, by decide, by decide⟩
  intro i hi m hm
  interval_cases i
  · have h2 : kIdent = m := by simpa [path9] using hm
    subst h2
    decide
  · have h2 : kvNode = m := by simpa [path9] using hm
    subst h2
    decide

theorem mem_allNodes_child (root : Node) : ∀ m c, m ∈ allNodes root → c ∈ m.children →
    c ∈ allNodes root := by
  intro m c hm hc
  rw [allNodes, visited_eq] at hm ⊢
  simp only [if_true] at hm ⊢
  rcases List.mem_cons.mp hm with rfl | hm
  · refine List.mem_cons_of_mem _ (List.mem_flatMap.mpr ⟨c, hc, ?_⟩)
    exact mem_visited_self _ c
  · rcases List.mem_flatMap.mp hm with ⟨ch, hch, hmch⟩
    have hrec := mem_allNodes_child ch m c (by rw [allNodes]; exact hmch) hc
    rw [allNodes] at hrec
    exact List.mem_cons_of_mem _ (List.mem_flatMap.mpr ⟨ch, hch, hrec⟩)
termination_by sizeOf root
decreasing_by exact sizeOf_lt_of_mem_children hch

theorem GopImportedPkgName_isImport {info : Info} {m : Node} {pkg : Obj}
    (h : GopImportedPkgName info m = some pkg) : isImportN m = true := by
  cases m <;> simp [GopImportedPkgName] at h
  rfl

theorem GopImportedPkgName_named {info : Info} {m : Node} {pkg : Obj} {nmId : Node}
    (h : GopImportedPkgName info m = some pkg) (hn : importName m = some nmId) :
    info.defs nmId.pos = some pkg := by
  cases m <;> simp [importName] at hn
  case importSpec onm pth p e =>
    subst hn
    simp only [GopImportedPkgName] at h
    rcases hd : info.defs nmId.pos with _ | o
    · simp [hd] at h
    · simp only [hd] at h
      by_cases ho : o.isPkgName = true
      · simp only [ho, if_true] at h
        exact h
      · simp [ho] at h

/-- Claim C2: for a cursor identifier id bound to object O, the
HighlightSet returned by gopHighlightIdentifier contains the range of
every identifier node in the file whose name equals the name of id and
whose resolved object equals O, and contains the range of no identifier
node whose resolved object is a different object; when O is the
explicit no-binding value, every same-named unresolved identifier of
the file is included.  The three span hypotheses state that the file is
well formed: distinct identifier nodes carry distinct spans, no
identifier shares its span with an import spec, and declared import
aliases are identifier nodes. -/
theorem C2_identifier_equivalence (id file : Node) (info : Info)
    (Hid : ∀ m ∈ allNodes file, ∀ m' ∈ allNodes file, isIdentN m = true →
      isIdentN m' = true → span m = span m' → m = m')
    (Himp : ∀ m ∈ allNodes file, ∀ m' ∈ allNodes file, isIdentN m = true →
      isImportN m' = true → span m ≠ span m')
    (Hnm : ∀ m' ∈ allNodes file, (importName m').all isIdentN = true) :
    (∀ m ∈ allNodes file, isIdentN m = true → identName m = identName id →
      info.objectOf m = info.objectOf id →
      span m ∈ gopHighlightIdentifier id file info []) ∧
    (∀ m ∈ allNodes file, isIdentN m = true → info.objectOf m ≠ info.objectOf id →
      span m ∉ gopHighlightIdentifier id file info []) ∧
    (info.objectOf id = none → ∀ m ∈ allNodes file, isIdentN m = true →
      identName m = identName id → info.objectOf m = none →
      span m ∈ gopHighlightIdentifier id file info []) := by
  have hout : ∀ r, r ∈ gopHighlightIdentifier id file info [] ↔
      ∃ m ∈ allNodes file,
        ((isIdentN m = true ∧ identName m = identName id ∧
            info.objectOf m = info.objectOf id ∧ r = span m) ∨
          (∃ pkg, GopImportedPkgName info m = some pkg ∧ some pkg = info.objectOf id ∧
            r = importNameSpan m)) := by
    intro r
    rw [gopHighlightIdentifier, List.append_nil]
    exact mem_walk_identCb (identName id) (info.objectOf id) info r file
  refine ⟨?_, ?_, ?_⟩
  · intro m hm hident hname hobj
    exact (hout _).mpr ⟨m, hm, .inl ⟨hident, hname, hobj, rfl⟩⟩
  · intro m hm hident hobj hmem
    rcases (hout _).mp hmem with ⟨m', hm', hbr⟩
    rcases hbr with ⟨hident', hname', hobj', hspan'⟩ | ⟨pkg, hpkg, hpkgobj, hspan'⟩
    · have heq : m = m' := Hid m hm m' hm' hident hident' hspan'
      rw [heq, hobj'] at hobj
      exact hobj rfl
    · have himp' : isImportN m' = true := GopImportedPkgName_isImport hpkg
      rcases hn : importName m' with _ | nmId
      · have hspan2 : span m = span m' := by
          rw [hspan', importNameSpan, hn]
        exact Himp m hm m' hm' hident himp' hspan2
      · have hdefs : info.defs nmId.pos = some pkg := GopImportedPkgName_named hpkg hn
        have hnmMem : nmId ∈ allNodes file := by
          refine mem_allNodes_child file m' nmId hm' ?_
          cases m' <;> simp [importName] at hn
          case importSpec onm pth p e =>
            subst hn
            simp [Node.children]
        have hnmIdent : isIdentN nmId = true := by
          have := Hnm m' hm'
          rw [hn] at this
          simpa using this
        have hspan2 : span m = span nmId := by
          rw [hspan', importNameSpan, hn]
        have heq : m = nmId := Hid m hm nmId hnmMem hident hnmIdent hspan2
        have hobjnm : info.objectOf nmId = some pkg := by
          rw [Info.objectOf, hdefs]
        rw [heq, hobjnm] at hobj
        exact hobj hpkgobj
  · intro hnone m hm hident hname hobj
    exact (hout _).mpr ⟨m, hm, .inl ⟨hident, hname, by rw [hobj, hnone], rfl⟩⟩

/-- Witness for claim C2 at the example file with identifiers x, y, x:
the span of the second x is included for a cursor on the first x, the
span of y is not. -/
theorem C2_identifier_equivalence_witness :
    span x2 ∈ gopHighlightIdentifier x1 file2 infoC2 [] ∧
    span y1 ∉ gopHighlightIdentifier x1 file2 infoC2 [] := by
  have h := C2_identifier_equivalence x1 file2 infoC2 (by decide) (by decide) (by decide)
  constructor
  · exact h.1 x2 (by decide) (by decide) (by decide) (by decide)
  · exact h.2.1 y1 (by decide) (by decide) (by decide)

theorem funcFlowHighlightAll_true (p0 : Node) (scan : FuncScan)
    (h : scan.returnStmt = some p0 ∨ scan.enclosingFunc = some p0 ∨ isFuncTypeN p0 = true) :
    funcFlowHighlightAll p0 scan = true := by
  cases p0 <;> simp [funcFlowHighlightAll, isFuncTypeN] at h ⊢ <;>
    (rcases h with h | h <;> simp [h])

theorem funcFlowHighlightAll_false (p0 : Node) (scan : FuncScan)
    (h1 : scan.returnStmt ≠ some p0) (h2 : scan.enclosingFunc ≠ some p0)
    (h3 : isFuncTypeN p0 = false) :
    funcFlowHighlightAll p0 scan = false := by
  cases p0 <;> simp [isFuncTypeN] at h3 <;> simp [funcFlowHighlightAll, h1, h2]

theorem funcFlowEarlyOut_false_of_kind (p0 : Node) (scan : FuncScan)
    (h : (isReturnN p0 || isFuncN p0 || isFuncTypeN p0) = true) :
    funcFlowEarlyOut p0 scan = false := by
  cases p0 <;> simp [isReturnN, isFuncN, isFuncTypeN] at h <;> rfl

theorem mem_funcFlow_highlightAll (path : List Node) (s : List posRange)
    (p0 : Node) (rest : List Node) (scan : FuncScan) (F : Node)
    (hpath : path = p0 :: rest) (hscan : funcFlowWalk path p0 = some scan)
    (hF : scan.enclosingFunc = some F) (hout : funcFlowEarlyOut p0 scan = false)
    (hall : funcFlowHighlightAll p0 scan = true)
    (hidx : nodeAtPos (funcFlowNodes scan) p0.pos = -1) (r : posRange) :
    r ∈ gopHighlightFuncControlFlow path s ↔
      r ∈ s ∨ r = { start := F.pos, stop := F.pos + "func".length } ∨
      (∃ m ∈ visited (funcBoundary F) F, isReturnN m = true ∧ r = span m) := by
  subst hpath
  simp only [gopHighlightFuncControlFlow, hscan, hF, hout, Bool.false_eq_true, if_false,
    hall, if_true, hidx]
  have hwalk : ∀ r : posRange, r ∈ walk (funcFlowCb F true (-1)) F ↔
      ∃ m ∈ visited (funcBoundary F) F, isReturnN m = true ∧ r = span m := by
    intro r
    rw [mem_walk_funcFlowCb]
    refine exists_congr fun m => and_congr_right fun _ => and_congr_right fun _ => ?_
    constructor
    · rintro (⟨⟨hlt, _⟩, _⟩ | ⟨_, _, hr⟩)
      · exact absurd hlt (by decide)
      · exact hr
    · intro hr
      exact .inr ⟨fun hc => absurd hc.1 (by decide), rfl, hr⟩
  split
  · next fl heq =>
    have hcond : ¬((-1 : Int) < -1 ∧ (-1 : Int) < ((fieldListFields fl).length : Int)) :=
      fun hc => absurd hc.1 (by decide)
    rw [if_neg hcond, List.mem_append, List.mem_cons, hwalk r]
    constructor
    · rintro (h | h | h)
      · exact .inr (.inr h)
      · exact .inr (.inl h)
      · exact .inl h
    · rintro (h | h | h)
      · exact .inr (.inr h)
      · exact .inr (.inl h)
      · exact .inl h
  · next heq =>
    rw [List.mem_append, List.mem_cons, hwalk r]
    constructor
    · rintro (h | h | h)
      · exact .inr (.inr h)
      · exact .inr (.inl h)
      · exact .inl h
    · rintro (h | h | h)
      · exact .inr (.inr h)
      · exact .inr (.inl h)
      · exact .inl h

theorem mem_funcFlow_index (path : List Node) (s : List posRange)
    (p0 : Node) (rest : List Node) (scan : FuncScan) (F : Node) (i : Int)
    (hpath : path = p0 :: rest) (hscan : funcFlowWalk path p0 = some scan)
    (hF : scan.enclosingFunc = some F) (hout : funcFlowEarlyOut p0 scan = false)
    (hall : funcFlowHighlightAll p0 scan = false)
    (hidx : nodeAtPos (funcFlowNodes scan) p0.pos = i) (hi : 0 ≤ i) (r : posRange) :
    r ∈ gopHighlightFuncControlFlow path s ↔
      r ∈ s ∨
      (∃ fl, scan.resultsList = some fl ∧ i < ((fieldListFields fl).length : Int) ∧
        r = span (getNode (fieldListFields fl) i.toNat)) ∨
      (∃ m ∈ visited (funcBoundary F) F, isReturnN m = true ∧
        i < ((returnResults m).length : Int) ∧
        r = span (getNode (returnResults m) i.toNat)) := by
  subst hpath
  simp only [gopHighlightFuncControlFlow, hscan, hF, hout, Bool.false_eq_true, if_false,
    hall, hidx]
  have hwalk : ∀ r : posRange, r ∈ walk (funcFlowCb F false i) F ↔
      ∃ m ∈ visited (funcBoundary F) F, isReturnN m = true ∧
        i < ((returnResults m).length : Int) ∧
        r = span (getNode (returnResults m) i.toNat) := by
    intro r
    rw [mem_walk_funcFlowCb]
    refine exists_congr fun m => and_congr_right fun _ => and_congr_right fun _ => ?_
    constructor
    · rintro (⟨⟨_, hlen⟩, hr⟩ | ⟨_, hfalse, _⟩)
      · exact ⟨hlen, hr⟩
      · exact absurd hfalse (by simp)
    · rintro ⟨hlen, hr⟩
      exact .inl ⟨⟨by omega, hlen⟩, hr⟩
  split
  · next fl hfl =>
    by_cases hcond : (-1 : Int) < i ∧ i < ((fieldListFields fl).length : Int)
    · rw [if_pos hcond, List.mem_append, List.mem_cons, hwalk r]
      constructor
      · rintro (h | h | h)
        · exact .inr (.inr h)
        · exact .inr (.inl ⟨fl, hfl, hcond.2, h⟩)
        · exact .inl h
      · rintro (h | ⟨fl', hfl', hlen', hr'⟩ | h)
        · exact .inr (.inr h)
        · rw [hfl] at hfl'
          obtain rfl : fl = fl' := by simpa using hfl'
          exact .inr (.inl hr')
        · exact .inl h
    · rw [if_neg hcond, List.mem_append, hwalk r]
      constructor
      · rintro (h | h)
        · exact .inr (.inr h)
        · exact .inl h
      · rintro (h | ⟨fl', hfl', hlen', hr'⟩ | h)
        · exact .inr h
        · rw [hfl] at hfl'
          obtain rfl : fl = fl' := by simpa using hfl'
          exact absurd ⟨by omega, hlen'⟩ hcond
        · exact .inl h
  · next hfl =>
    rw [List.mem_append, hwalk r]
    constructor
    · rintro (h | h)
      · exact .inr (.inr h)
      · exact .inl h
    · rintro (h | ⟨fl', hfl', _⟩ | h)
      · exact .inr h
      · rw [hfl] at hfl'
        exact absurd hfl' (by simp)
      · exact .inl h

/-- Claim C1: function-exit highlighting.  First part: when the cursor
path places the cursor on a return statement itself, on the enclosing
function node, or on a function-signature type (and the cursor position
lies in no result expression, so the positional index is -1), the added
ranges are exactly the 4-character func keyword span at the enclosing
function start offset together with the full span of every return
statement found by the traversal of the function that does not descend
into nested function declarations or literals and does not descend into
a processed return statement.  Second part: when highlight-all does not
hold and the cursor expression has nonnegative positional index i, the
added ranges are exactly the signature result field at index i (when it
exists) and, for every return statement found by the same traversal
that has a result expression at index i, only that expression's range;
in particular each return statement contributes at most one highlighted
unit. -/
theorem C1_function_exit (path : List Node) (s : List posRange) (p0 : Node) (rest : List Node)
    (scan : FuncScan) (F : Node)
    (hpath : path = p0 :: rest) (hscan : funcFlowWalk path p0 = some scan)
    (hF : scan.enclosingFunc = some F) :
    (((isReturnN p0 = true ∧ scan.returnStmt = some p0) ∨
        (isFuncN p0 = true ∧ scan.enclosingFunc = some p0) ∨ isFuncTypeN p0 = true) →
      nodeAtPos (funcFlowNodes scan) p0.pos = -1 →
      ∀ r, r ∈ gopHighlightFuncControlFlow path s ↔
        r ∈ s ∨ r = { start := F.pos, stop := F.pos + "func".length } ∨
        (∃ m ∈ visited (funcBoundary F) F, isReturnN m = true ∧ r = span m)) ∧
    (∀ i : Int, scan.returnStmt ≠ some p0 → scan.enclosingFunc ≠ some p0 →
      isFuncTypeN p0 = false → funcFlowEarlyOut p0 scan = false →
      nodeAtPos (funcFlowNodes scan) p0.pos = i → 0 ≤ i →
      ∀ r, r ∈ gopHighlightFuncControlFlow path s ↔
        r ∈ s ∨
        (∃ fl, scan.resultsList = some fl ∧ i < ((fieldListFields fl).length : Int) ∧
          r = span (getNode (fieldListFields fl) i.toNat)) ∨
        (∃ m ∈ visited (funcBoundary F) F, isReturnN m = true ∧
          i < ((returnResults m).length : Int) ∧
          r = span (getNode (returnResults m) i.toNat))) := by
  constructor
  · intro hcur hidx r
    have hall : funcFlowHighlightAll p0 scan = true := by
      refine funcFlowHighlightAll_true p0 scan ?_
      rcases hcur with ⟨_, h⟩ | ⟨_, h⟩ | h
      · exact .inl h
      · exact .inr (.inl h)
      · exact .inr (.inr h)
    have hkind : (isReturnN p0 || isFuncN p0 || isFuncTypeN p0) = true := by
      rcases hcur with ⟨h, _⟩ | ⟨h, _⟩ | h <;> simp [h]
    have hout : funcFlowEarlyOut p0 scan = false :=
      funcFlowEarlyOut_false_of_kind p0 scan hkind
    exact mem_funcFlow_highlightAll path s p0 rest scan F hpath hscan hF hout hall hidx r
  · intro i h1 h2 h3 hout hidx hi r
    have hall : funcFlowHighlightAll p0 scan = false :=
      funcFlowHighlightAll_false p0 scan h1 h2 h3
    exact mem_funcFlow_index path s p0 rest scan F i hpath hscan hF hout hall hidx hi r

/-- Witness for claim C1 on the example function
func f() int { if c { return 1 }; return 2 }: with the cursor on the
first return statement the func keyword span and the full span of the
second return are highlighted; with the cursor on the literal 1 the
span of the literal 2 (the result of the other return at index 0) and
the signature result field are highlighted. -/
theorem C1_function_exit_witness :
    ({ start := 0, stop := 4 } : posRange) ∈ gopHighlightFuncControlFlow path1a [] ∧
    span ret2 ∈ gopHighlightFuncControlFlow path1a [] ∧
    span twoLit ∈ gopHighlightFuncControlFlow path1b [] ∧
    span resField ∈ gopHighlightFuncControlFlow path1b [] := by
  have ha := (C1_function_exit path1a [] ret1 [innerBlock, ifNode, fBody, fDecl, file1]
      ⟨some fDecl, some ret1, some resList, false⟩ fDecl rfl (by decide) (by decide)).1
    (.inl ⟨by decide, by decide⟩) (by decide)
  have hb := (C1_function_exit path1b [] oneLit [ret1, innerBlock, ifNode, fBody, fDecl, file1]
      ⟨some fDecl, some ret1, some resList, true⟩ fDecl rfl (by decide) (by decide)).2
    0 (by decide) (by decide) (by decide) (by decide) (by decide) (by decide)
  refine ⟨?_, ?_, ?_, ?_⟩
  · exact (ha _).mpr (.inr (.inl (by decide)))
  · exact (ha _).mpr (.inr (.inr ⟨ret2, by decide, by decide, rfl⟩))
  · exact (hb _).mpr (.inr (.inr ⟨ret2, by decide, by decide, by decide, by decide⟩))
  · exact (hb _).mpr (.inr (.inl ⟨resList, by decide, by decide, by decide⟩))
